import Mathlib

/-!
# Verification of the La Vega order-management core (`src/app.py`)

Shallow embedding of the CSV ingestion and aggregation pipeline of the
Flipitmedia/Vegapp repository, together with proofs and refutations of the
specification claims about it.

Modelling conventions:
* A CSV row as produced by `csv.DictReader` is a record of optional strings;
  `none` models an absent column (`row.get(key, default)` then yields the
  default).  Short rows (DictReader's `restval`) are not modelled.
* Python `float(...)`/`int(...)` applied to strings are modelled as partial
  parsers into `ℚ`/`ℤ`; a raised `ValueError` is modelled as `Except.error ()`
  propagating out of the translated function, exactly where the Python
  exception would propagate.  Binary floating-point rounding is not modelled:
  a parsed decimal literal is kept as the exact rational it denotes (no claim
  performs arithmetic on these values); IEEE specials (`inf`, `nan`) and
  digit-group underscores are outside the model.
* `datetime.strptime(s, '%Y-%m-%d %H:%M:%S')` is modelled after CPython's
  `_strptime` regex table (`%Y` = 4 digits, `%m` = `1[0-2]|0[1-9]|[1-9]`,
  `%d` = `3[01]|[12]\d|0[1-9]|[1-9]`, `%H` = `2[0-3]|[0-1]\d|\d`,
  `%M`/`%S` = `[0-5]\d|\d`, a space matches `\s+`, the whole string must be
  consumed) followed by the `datetime` constructor's calendar validation.
* The SQLite store is modelled relationally: each table is a list of records,
  `AUTOINCREMENT` ids are explicit counters.  SQL queries are translated
  clause by clause; `ORDER BY` is realised with `List.insertionSort` (the
  keys involved are total, so any correct sort yields the same list); SQLite
  sorts `NULL` before every string in ascending order, which is modelled by
  `Option String` with `none` first.
-/

/-! ## Python string primitives -/

/-- Python's `\s` character class (ASCII part), also used by `str.strip`. -/
def pyIsSpace (c : Char) : Bool :=
  c = ' ' || c = '\t' || c = '\n' || c = '\r' || c = '\x0b' || c = '\x0c'

/-- Model of `str.strip()` on a character list. -/
def pyStripL (cs : List Char) : List Char :=
  ((cs.dropWhile pyIsSpace).reverse.dropWhile pyIsSpace).reverse

/-- Model of `str.strip()`. -/
def pyStrip (s : String) : String := ⟨pyStripL s.data⟩

/-- Numeric value of a digit list (most significant first). -/
def digitsToNat (ds : List Char) : Nat :=
  ds.foldl (fun n c => n * 10 + (c.toNat - 48)) 0

/-- Read an optional leading `+`/`-`; returns (isNegative, rest). -/
def readSign : List Char → Bool × List Char
  | '+' :: r => (false, r)
  | '-' :: r => (true, r)
  | cs => (false, cs)

/-- Model of `s.split(sep)[0]`: the prefix of `cs` before the first occurrence of the
(non-empty) separator `sep`; the whole list when `sep` does not occur. -/
def takeUntilSub (sep : List Char) : List Char → List Char
  | [] => []
  | c :: rest => if sep.isPrefixOf (c :: rest) then [] else c :: takeUntilSub sep rest

/-- Model of `s.split(sep)[0]` on strings. -/
def pySplitFirst (s sep : String) : String := ⟨takeUntilSub sep.data s.data⟩

/-! ## Python numeric constructors -/

/-- Model of Python `float(s)` on strings: optional surrounding whitespace,
optional sign, decimal mantissa (`digits`, `digits.digits`, `.digits`,
`digits.`), optional `e`/`E` exponent.  `none` models a raised `ValueError`.
The value is kept as the exact rational denoted by the literal. -/
def pyFloat (s : String) : Option ℚ :=
  let cs := pyStripL s.data
  let (neg, cs1) := readSign cs
  let mant := cs1.takeWhile (fun c => !(c = 'e' || c = 'E'))
  let expPart := cs1.drop mant.length
  let expVal : Option Int :=
    match expPart with
    | [] => some 0
    | _ :: er =>
      let (eneg, eds) := readSign er
      if eds ≠ [] ∧ eds.all Char.isDigit then
        some (if eneg then -(digitsToNat eds : Int) else (digitsToNat eds : Int))
      else none
  let ip := mant.takeWhile (fun c => !(c = '.'))
  let fp? : Option (List Char) :=
    match mant.drop ip.length with
    | [] => some []
    | _ :: fr => if fr.all (fun c => !(c = '.')) then some fr else none
  match fp?, expVal with
  | some fp, some e =>
    if ip.all Char.isDigit ∧ fp.all Char.isDigit ∧ (ip ≠ [] ∨ fp ≠ []) then
      let base : ℚ := (digitsToNat ip : ℚ) + (digitsToNat fp : ℚ) / (10 : ℚ) ^ fp.length
      let scaled := if 0 ≤ e then base * (10 : ℚ) ^ e.toNat else base / (10 : ℚ) ^ (-e).toNat
      some (if neg then -scaled else scaled)
    else none
  | _, _ => none

/-- Model of Python `int(s)` on strings: optional surrounding whitespace,
optional sign, one or more digits.  `none` models a raised `ValueError`. -/
def pyInt (s : String) : Option Int :=
  let cs := pyStripL s.data
  let (neg, cs1) := readSign cs
  if cs1 ≠ [] ∧ cs1.all Char.isDigit then
    some (if neg then -(digitsToNat cs1 : Int) else (digitsToNat cs1 : Int))
  else none

/-- Model of `float(row.get(key, 0) or 0)` (used for `Total` and `Lineitem price`):
an absent column or empty string yields `0`; any other string is fed to
`float`, whose failure raises. -/
def pyFloatField (v : Option String) : Except Unit ℚ :=
  match v with
  | none => .ok 0
  | some s =>
    if s = "" then .ok 0
    else match pyFloat s with
      | some q => .ok q
      | none => .error ()

/-- Model of `int(row.get('Lineitem quantity', 1) or 1)`: an absent column or empty
string yields `1`; any other string is fed to `int`, whose failure raises. -/
def pyIntField (v : Option String) : Except Unit Int :=
  match v with
  | none => .ok 1
  | some s =>
    if s = "" then .ok 1
    else match pyInt s with
      | some n => .ok n
      | none => .error ()

/-! ## `datetime.strptime(s, '%Y-%m-%d %H:%M:%S')` -/

/-- A parsed timestamp (the fields `datetime.strptime` produces here). -/
structure PyDateTime where
  year : Nat
  month : Nat
  day : Nat
  hour : Nat
  minute : Nat
  second : Nat
deriving Repr, DecidableEq

/-- Exactly `n` digits (`%Y` is `\d\d\d\d`). -/
def readNDigits : Nat → List Char → Option (Nat × List Char)
  | 0, cs => some (0, cs)
  | _ + 1, [] => none
  | n + 1, c :: cs =>
    if c.isDigit then
      (readNDigits n cs).map (fun p => (((c.toNat - 48) * 10 ^ n + p.1), p.2))
    else none

/-- A single literal character of the format. -/
def expectChar (c : Char) : List Char → Option (List Char)
  | [] => none
  | c' :: cs => if c' = c then some cs else none

/-- A space in the format matches `\s+`. -/
def expectWs : List Char → Option (List Char)
  | [] => none
  | c :: cs => if pyIsSpace c then some (cs.dropWhile pyIsSpace) else none

/-- Field `%m`, regex `1[0-2]|0[1-9]|[1-9]` (alternatives tried left to right). -/
def readMonth : List Char → Option (Nat × List Char)
  | c1 :: c2 :: rest =>
    if c1 = '1' ∧ '0' ≤ c2 ∧ c2 ≤ '2' then some (10 + (c2.toNat - 48), rest)
    else if c1 = '0' ∧ '1' ≤ c2 ∧ c2 ≤ '9' then some (c2.toNat - 48, rest)
    else if '1' ≤ c1 ∧ c1 ≤ '9' then some (c1.toNat - 48, c2 :: rest)
    else none
  | [c1] => if '1' ≤ c1 ∧ c1 ≤ '9' then some (c1.toNat - 48, []) else none
  | [] => none

/-- Field `%d`, regex `3[01]|[12]\d|0[1-9]|[1-9]`. -/
def readDay : List Char → Option (Nat × List Char)
  | c1 :: c2 :: rest =>
    if c1 = '3' ∧ '0' ≤ c2 ∧ c2 ≤ '1' then some (30 + (c2.toNat - 48), rest)
    else if ('1' ≤ c1 ∧ c1 ≤ '2') ∧ c2.isDigit then
      some ((c1.toNat - 48) * 10 + (c2.toNat - 48), rest)
    else if c1 = '0' ∧ '1' ≤ c2 ∧ c2 ≤ '9' then some (c2.toNat - 48, rest)
    else if '1' ≤ c1 ∧ c1 ≤ '9' then some (c1.toNat - 48, c2 :: rest)
    else none
  | [c1] => if '1' ≤ c1 ∧ c1 ≤ '9' then some (c1.toNat - 48, []) else none
  | [] => none

/-- Field `%H`, regex `2[0-3]|[0-1]\d|\d`. -/
def readHour : List Char → Option (Nat × List Char)
  | c1 :: c2 :: rest =>
    if c1 = '2' ∧ '0' ≤ c2 ∧ c2 ≤ '3' then some (20 + (c2.toNat - 48), rest)
    else if ('0' ≤ c1 ∧ c1 ≤ '1') ∧ c2.isDigit then
      some ((c1.toNat - 48) * 10 + (c2.toNat - 48), rest)
    else if c1.isDigit then some (c1.toNat - 48, c2 :: rest)
    else none
  | [c1] => if c1.isDigit then some (c1.toNat - 48, []) else none
  | [] => none

/-- Fields `%M` and `%S`, regex `[0-5]\d|\d` (the leap-second branch `6[0-1]` of
`%S` always fails the subsequent `datetime` range check, so it is omitted:
both models reject the same strings). -/
def readSixty : List Char → Option (Nat × List Char)
  | c1 :: c2 :: rest =>
    if ('0' ≤ c1 ∧ c1 ≤ '5') ∧ c2.isDigit then
      some ((c1.toNat - 48) * 10 + (c2.toNat - 48), rest)
    else if c1.isDigit then some (c1.toNat - 48, c2 :: rest)
    else none
  | [c1] => if c1.isDigit then some (c1.toNat - 48, []) else none
  | [] => none

/-- Gregorian leap year, as validated by the `datetime` constructor. -/
def isLeap (y : Nat) : Bool := y % 4 = 0 ∧ (y % 100 ≠ 0 ∨ y % 400 = 0)

/-- Days in a month, as validated by the `datetime` constructor. -/
def daysInMonth (y m : Nat) : Nat :=
  if m = 2 then (if isLeap y then 29 else 28)
  else if m = 4 ∨ m = 6 ∨ m = 9 ∨ m = 11 then 30
  else 31

/-- Model of `datetime.strptime(s, '%Y-%m-%d %H:%M:%S')`; `none` models the
`ValueError` raised either by `_strptime` (no full regex match) or by the
`datetime` constructor (year 0 or day beyond the month's length). -/
def pyStrptime (s : String) : Option PyDateTime :=
  match readNDigits 4 s.data with
  | none => none
  | some (y, r1) =>
  match expectChar '-' r1 with
  | none => none
  | some r2 =>
  match readMonth r2 with
  | none => none
  | some (mo, r3) =>
  match expectChar '-' r3 with
  | none => none
  | some r4 =>
  match readDay r4 with
  | none => none
  | some (d, r5) =>
  match expectWs r5 with
  | none => none
  | some r6 =>
  match readHour r6 with
  | none => none
  | some (h, r7) =>
  match expectChar ':' r7 with
  | none => none
  | some r8 =>
  match readSixty r8 with
  | none => none
  | some (mi, r9) =>
  match expectChar ':' r9 with
  | none => none
  | some r10 =>
  match readSixty r10 with
  | none => none
  | some (se, r11) =>
    if r11 = [] ∧ 1 ≤ y ∧ d ≤ daysInMonth y mo then
      some ⟨y, mo, d, h, mi, se⟩
    else none

/-- Lines 164–172 of `app.py`: the timezone suffix is stripped
(`split(' -')[0].split(' +')[0]`) before `strptime`; the guard
`if row.get('Created at'):` skips absent/empty fields, and the
`try/except: pass` makes every failure yield an unset timestamp.
This function is total: no input makes it propagate an error. -/
def parseCreatedAt (v : Option String) : Option PyDateTime :=
  match v with
  | none => none
  | some s =>
    if s = "" then none
    else pyStrptime (pySplitFirst (pySplitFirst s " -") " +")

/-! ## `parse_note_attributes` (lines 130–147): the Text Extractor -/

/-- The literal `Comuna de Entrega:`. -/
def comunaLit : List Char := "Comuna de Entrega:".data

/-- The literal `Fecha de Entrega:`. -/
def fechaLit : List Char := "Fecha de Entrega:".data

/-- Regex tail `\s*([^\n]+)` with backtracking, applied right after the comuna literal:
the greedy `\s*` first eats the maximal whitespace run; if nothing
non-newline follows, it backs off one whitespace character at a time, and a
non-newline whitespace character can then feed `[^\n]+`.  Returns the raw
captured group. -/
def comunaGroup (cs : List Char) : Option (List Char) :=
  let w := cs.takeWhile pyIsSpace
  let rest := cs.drop w.length
  match rest with
  | c :: rs => some ((c :: rs).takeWhile (fun x => !(x = '\n')))
  | [] =>
    match w.reverse.dropWhile (fun x => x = '\n') with
    | [] => none
    | c :: _ => some [c]

/-- Model of `re.search(r'Comuna de Entrega:\s*([^\n]+)', text)`: scan every start
position left to right, at each try the literal followed by `\s*([^\n]+)`. -/
def searchComuna : List Char → Option (List Char)
  | [] => none
  | c :: rest =>
    match if comunaLit.isPrefixOf (c :: rest) then
            comunaGroup ((c :: rest).drop comunaLit.length)
          else none with
    | some g => some g
    | none => searchComuna rest

/-- Regex tail `\s*(\d{4}-\d{2}-\d{2})` right after the fecha literal: `\s*` cannot be
backtracked into (a whitespace character never matches `\d`), so the date
shape is checked directly after the maximal whitespace run. -/
def fechaGroup (cs : List Char) : Option (List Char) :=
  match cs.dropWhile pyIsSpace with
  | a :: b :: c :: d :: '-' :: e :: f :: '-' :: g :: h :: _ =>
    if a.isDigit ∧ b.isDigit ∧ c.isDigit ∧ d.isDigit ∧ e.isDigit ∧ f.isDigit ∧
        g.isDigit ∧ h.isDigit then
      some [a, b, c, d, '-', e, f, '-', g, h]
    else none
  | _ => none

/-- Model of `re.search(r'Fecha de Entrega:\s*(\d{4}-\d{2}-\d{2})', text)`. -/
def searchFecha : List Char → Option (List Char)
  | [] => none
  | c :: rest =>
    match if fechaLit.isPrefixOf (c :: rest) then
            fechaGroup ((c :: rest).drop fechaLit.length)
          else none with
    | some g => some g
    | none => searchFecha rest

/-- Result record of `parse_note_attributes`. -/
structure NoteAttrs where
  comuna : Option String
  fecha_entrega : Option String
deriving Repr, DecidableEq

/-- Model of `parse_note_attributes(note_attrs)`: the comuna capture is `.strip()`ed,
the fecha capture is taken literally.  (The early return on falsy input is
behaviourally identical to searching the empty string.) -/
def parse_note_attributes (s : String) : NoteAttrs :=
  { comuna := (searchComuna s.data).map (fun g => pyStrip ⟨g⟩)
    fecha_entrega := (searchFecha s.data).map (fun g => (⟨g⟩ : String)) }

/-! ## `parse_shopify_csv` (lines 149–196): the Order Grouper -/

/-- One `csv.DictReader` row of a Shopify export; `none` = column absent. -/
structure Row where
  name : Option String
  email : Option String
  noteAttributes : Option String
  createdAt : Option String
  shippingName : Option String
  billingName : Option String
  shippingAddress1 : Option String
  phone : Option String
  shippingPhone : Option String
  total : Option String
  lineitemName : Option String
  lineitemQuantity : Option String
  lineitemPrice : Option String
  lineitemSku : Option String
deriving Repr, DecidableEq

/-- A fully absent row, for building concrete rows by field update. -/
def Row.blank : Row :=
  ⟨none, none, none, none, none, none, none, none, none, none, none, none, none, none⟩

/-- Model of `row.get(key, '')`. -/
def fld (v : Option String) : String := v.getD ""

/-- Model of `row.get(k1, '') or row.get(k2, '')` (Python `or` on strings: an empty
first operand selects the second). -/
def orFld (a b : Option String) : String :=
  if fld a = "" then fld b else fld a

/-- One grouped line item (lines 189–194). -/
structure Item where
  producto : String
  cantidad : Int
  precio : ℚ
  sku : String
deriving Repr, DecidableEq

/-- One grouped candidate order (lines 174–185). -/
structure Order where
  order_number : String
  email : String
  comuna : Option String
  fecha_entrega : Option String
  nombre_cliente : String
  direccion : String
  telefono : String
  total : ℚ
  created_at : Option PyDateTime
  items : List Item
deriving Repr, DecidableEq

/-- The dict literal of lines 174–185, built from the first row seen for an
order number; `float(row.get('Total', 0) or 0)` is the only failure point. -/
def mkOrderScalars (r : Row) : Except Unit Order :=
  let na := parse_note_attributes (fld r.noteAttributes)
  match pyFloatField r.total with
  | .error e => .error e
  | .ok t =>
    .ok { order_number := fld r.name
          email := fld r.email
          comuna := na.comuna
          fecha_entrega := na.fecha_entrega
          nombre_cliente := orFld r.shippingName r.billingName
          direccion := fld r.shippingAddress1
          telefono := orFld r.phone r.shippingPhone
          total := t
          created_at := parseCreatedAt r.createdAt
          items := [] }

/-- The item dict of lines 189–194; quantity and price conversion are the
failure points. -/
def itemOfRow (r : Row) : Except Unit Item :=
  match pyIntField r.lineitemQuantity with
  | .error e => .error e
  | .ok q =>
    match pyFloatField r.lineitemPrice with
    | .error e => .error e
    | .ok p =>
      .ok { producto := fld r.lineitemName
            cantidad := q
            precio := p
            sku := fld r.lineitemSku }

/-- Model of `orders[order_number]['items'].append(item)` on the insertion-ordered
association list modelling the Python dict. -/
def addItem (onum : String) (it : Item) (acc : List (String × Order)) :
    List (String × Order) :=
  acc.map (fun p =>
    if p.1 = onum then (p.1, { p.2 with items := p.2.items ++ [it] }) else p)

/-- The body of the `for row in reader:` loop (lines 155–194). -/
def processRow (acc : List (String × Order)) (r : Row) :
    Except Unit (List (String × Order)) :=
  let onum := fld r.name
  if onum = "" then .ok acc
  else
    let step1 : Except Unit (List (String × Order)) :=
      if (acc.lookup onum).isSome then .ok acc
      else match mkOrderScalars r with
        | .error e => .error e
        | .ok o => .ok (acc ++ [(onum, o)])
    match step1 with
    | .error e => .error e
    | .ok acc1 =>
      if fld r.lineitemName = "" then .ok acc1
      else match itemOfRow r with
        | .error e => .error e
        | .ok it => .ok (addItem onum it acc1)

/-- The loop, threading the Python dict through the rows. -/
def parseRows : List Row → List (String × Order) →
    Except Unit (List (String × Order))
  | [], acc => .ok acc
  | r :: rs, acc =>
    match processRow acc r with
    | .error e => .error e
    | .ok acc' => parseRows rs acc'

/-- Model of `parse_shopify_csv`: `list(orders.values())` in insertion order.  An
uncaught `ValueError` from a numeric conversion is the `.error` case. -/
def parse_shopify_csv (rows : List Row) : Except Unit (List Order) :=
  match parseRows rows [] with
  | .error e => .error e
  | .ok acc => .ok (acc.map Prod.snd)

/-- The first row carrying order number `k` (specification helper). -/
def firstRowFor (rows : List Row) (k : String) : Option Row :=
  rows.find? (fun r => fld r.name = k)

/-- The rows carrying order number `k` that contribute a line item
(specification helper). -/
def itemRowsFor (rows : List Row) (k : String) : List Row :=
  rows.filter (fun r => fld r.name = k ∧ ¬ fld r.lineitemName = "")

/-- Error-propagating map (specification helper used to state that an
order's items are exactly the converted item rows). -/
def mapME (f : Row → Except Unit Item) : List Row → Except Unit (List Item)
  | [] => .ok []
  | a :: as =>
    match f a with
    | .error e => .error e
    | .ok b =>
      match mapME f as with
      | .error e => .error e
      | .ok bs => .ok (b :: bs)

/-! ## The SQLite store (`init_db`, lines 49–121) -/

/-- A row of `pedidos`.  `fecha_entrega` is a plain string: `upload_csv`
only ever inserts orders whose delivery date is present (line 268). -/
structure Pedido where
  id : Nat
  order_number : String
  email : String
  comuna : Option String
  fecha_entrega : String
  direccion : String
  telefono : String
  nombre_cliente : String
  total : ℚ
  created_at : Option PyDateTime
  status : String
deriving Repr, DecidableEq

/-- A row of `lineas_pedido`. -/
structure Linea where
  id : Nat
  pedido_id : Nat
  producto : String
  cantidad : Int
  precio : ℚ
  sku : String
deriving Repr, DecidableEq

/-- A row of `categorias`. -/
structure Categoria where
  id : Nat
  nombre : String
  orden : Int
deriving Repr, DecidableEq

/-- A row of `producto_categoria` (`producto` is UNIQUE in the schema). -/
structure ProductoCategoria where
  producto : String
  categoria_id : Nat
deriving Repr, DecidableEq

/-- The relational store; `next…` counters model AUTOINCREMENT ids. -/
structure Store where
  pedidos : List Pedido
  lineas : List Linea
  categorias : List Categoria
  producto_categoria : List ProductoCategoria
  nextPedidoId : Nat
  nextLineaId : Nat
deriving Repr, DecidableEq

/-- The store with empty tables. -/
def Store.empty : Store := ⟨[], [], [], [], 1, 1⟩

/-- Test whether `SELECT id FROM pedidos WHERE order_number = ?` is non-empty. -/
def numbersB (st : Store) (n : String) : Bool :=
  st.pedidos.any (fun p => p.order_number = n)

/-- Python truthiness test `if not order['fecha_entrega']`. -/
def pyFalsyStr : Option String → Bool
  | none => true
  | some s => s = ""

/-! ## `upload_csv` (lines 241–308): the Deduplication & Persistence Gate -/

/-- Running counters of the ingestion loop. -/
structure UploadCounts where
  nuevos : Nat
  duplicados : Nat
  sin_fecha : Nat
deriving Repr, DecidableEq

/-- The response dict of lines 302–308. -/
structure UploadResult where
  nuevos : Nat
  duplicados : Nat
  sin_fecha : Nat
  total : Nat
deriving Repr, DecidableEq

/-- Model of `INSERT INTO pedidos … VALUES (…)` with `status` defaulting to
`'pendiente'` (line 87), followed by the per-item
`INSERT INTO lineas_pedido` loop (lines 290–295). -/
def insertOrder (st : Store) (o : Order) (fecha : String) : Store :=
  let pid := st.nextPedidoId
  let ped : Pedido :=
    { id := pid, order_number := o.order_number, email := o.email
      comuna := o.comuna, fecha_entrega := fecha, direccion := o.direccion
      telefono := o.telefono, nombre_cliente := o.nombre_cliente
      total := o.total, created_at := o.created_at, status := "pendiente" }
  let inserted := o.items.foldl
    (fun (pr : List Linea × Nat) it =>
      (pr.1 ++ [{ id := pr.2, pedido_id := pid, producto := it.producto
                  cantidad := it.cantidad, precio := it.precio
                  sku := it.sku }], pr.2 + 1))
    (st.lineas, st.nextLineaId)
  { st with pedidos := st.pedidos ++ [ped], lineas := inserted.1
            nextPedidoId := pid + 1, nextLineaId := inserted.2 }

/-- One iteration of the `for order in orders:` loop (lines 259–297):
duplicate check first, then the delivery-date check, then the insert. -/
def ingestOne (stc : Store × UploadCounts) (o : Order) : Store × UploadCounts :=
  let (st, c) := stc
  if numbersB st o.order_number then
    (st, { c with duplicados := c.duplicados + 1 })
  else if pyFalsyStr o.fecha_entrega then
    (st, { c with sin_fecha := c.sin_fecha + 1 })
  else
    (insertOrder st o (fld o.fecha_entrega), { c with nuevos := c.nuevos + 1 })

/-- Model of `upload_csv` from the candidate-order list onwards (the store side and
the response; `total` is `len(orders)`). -/
def upload_csv (st : Store) (orders : List Order) : Store × UploadResult :=
  let r := orders.foldl ingestOne (st, ⟨0, 0, 0⟩)
  (r.1, { nuevos := r.2.nuevos, duplicados := r.2.duplicados
          sin_fecha := r.2.sin_fecha, total := orders.length })

/-- The whole `/upload` endpoint after file decoding: parse, then ingest.
A `ValueError` escaping `parse_shopify_csv` aborts the request before any
store access (`parse_shopify_csv(content)` runs on line 250, before the
database loop), which the `.error` case models. -/
def uploadEndpoint (st : Store) (rows : List Row) :
    Except Unit (Store × UploadResult) :=
  match parse_shopify_csv rows with
  | .error e => .error e
  | .ok orders => .ok (upload_csv st orders)

/-! ## `completar_pedido` (lines 620–628) and `eliminar_pedido` (631–640) -/

/-- Model of `UPDATE pedidos SET status = 'completado' WHERE id = ?`.  The endpoint
returns `{"success": True}` unconditionally; only the store effect is
modelled. -/
def completar_pedido (st : Store) (pedido_id : Nat) : Store :=
  { st with pedidos := st.pedidos.map (fun p =>
      if p.id = pedido_id then { p with status := "completado" } else p) }

/-- Model of `DELETE FROM lineas_pedido WHERE pedido_id = ?` then
`DELETE FROM pedidos WHERE id = ?`. -/
def eliminar_pedido (st : Store) (pedido_id : Nat) : Store :=
  { st with
    lineas := st.lineas.filter (fun l => !(l.pedido_id = pedido_id))
    pedidos := st.pedidos.filter (fun p => !(p.id = pedido_id)) }

/-! ## `get_pedidos` (lines 370–398): the picking manifest -/

/-- The `ORDER BY fecha_entrega, order_number` key (both TEXT, ascending;
SQLite BINARY collation orders UTF-8 byte-wise, which coincides with the
codepoint-lexicographic `String` order). -/
def pedidoLe (a b : Pedido) : Prop :=
  a.fecha_entrega < b.fecha_entrega ∨
    (a.fecha_entrega = b.fecha_entrega ∧ a.order_number ≤ b.order_number)

instance : DecidableRel pedidoLe := fun a b => by
  unfold pedidoLe; infer_instance

instance : IsTotal Pedido pedidoLe where
  total a b := by
    unfold pedidoLe
    rcases lt_trichotomy a.fecha_entrega b.fecha_entrega with h | h | h
    · exact Or.inl (Or.inl h)
    · rcases le_total a.order_number b.order_number with h2 | h2
      · exact Or.inl (Or.inr ⟨h, h2⟩)
      · exact Or.inr (Or.inr ⟨h.symm, h2⟩)
    · exact Or.inr (Or.inl h)

instance : IsTrans Pedido pedidoLe where
  trans a b c hab hbc := by
    unfold pedidoLe at *
    rcases hab with h1 | ⟨e1, l1⟩ <;> rcases hbc with h2 | ⟨e2, l2⟩
    · exact Or.inl (h1.trans h2)
    · exact Or.inl (e2 ▸ h1)
    · exact Or.inl (e1 ▸ h2)
    · exact Or.inr ⟨e1.trans e2, l1.trans l2⟩

/-- Model of `get_pedidos(fecha, status)`: filter by the optional parameters, sort by
`(fecha_entrega, order_number)`, and attach each order's line items
(`SELECT * FROM lineas_pedido WHERE pedido_id = ?`, lines 393–395). -/
def get_pedidos (st : Store) (fecha status : Option String) :
    List (Pedido × List Linea) :=
  let ps := st.pedidos.filter (fun p =>
    (match fecha with | none => true | some f => p.fecha_entrega = f) &&
    (match status with | none => true | some s => p.status = s))
  (ps.insertionSort pedidoLe).map
    (fun p => (p, st.lineas.filter (fun l => l.pedido_id = p.id)))

/-! ## `get_lista_compras` (lines 418–454): the shopping list -/

/-- The category row joined to a product:
`LEFT JOIN producto_categoria pc ON lp.producto = pc.producto
 LEFT JOIN categorias c ON pc.categoria_id = c.id`
(`producto` is UNIQUE in `producto_categoria` and `id` is the primary key
of `categorias`, so the joined category row is determined by the product;
a dangling `categoria_id` behaves like no mapping: `c` is all NULL). -/
def catRowOf (st : Store) (producto : String) : Option Categoria :=
  match st.producto_categoria.find? (fun pc => pc.producto = producto) with
  | none => none
  | some pc => st.categorias.find? (fun c => c.id = pc.categoria_id)

/-- One row of the SELECT of lines 425–438 after `GROUP BY lp.producto`:
`producto`, `SUM(cantidad)`, the two COALESCEd columns, and the raw
`c.nombre` (NULL for unmapped products) that `ORDER BY` uses. -/
structure ListaRow where
  producto : String
  cantidad_total : Int
  categoria : String
  categoria_orden : Int
  nombre_cat : Option String
deriving Repr, DecidableEq

/-- The FROM/JOIN/WHERE rows: each line item paired with every `pedidos` row
matching `lp.pedido_id = p.id AND p.fecha_entrega = ? AND
p.status = 'pendiente'`. -/
def joinRows (st : Store) (fecha : String) : List (Linea × Pedido) :=
  st.lineas.flatMap (fun lp =>
    (st.pedidos.filter (fun p =>
      p.id = lp.pedido_id ∧ p.fecha_entrega = fecha ∧ p.status = "pendiente")).map
      (fun p => (lp, p)))

/-- The grouped row for one product: `SUM(lp.cantidad)` over the product's
joined rows, `COALESCE(c.nombre, 'Sin Categoría')`, `COALESCE(c.orden, 999)`. -/
def filaDe (st : Store) (joined : List (Linea × Pedido)) (producto : String) :
    ListaRow :=
  { producto := producto
    cantidad_total :=
      (((joined.filter (fun lp => lp.1.producto = producto)).map
        (fun lp => lp.1.cantidad)).sum)
    categoria := ((catRowOf st producto).map Categoria.nombre).getD "Sin Categoría"
    categoria_orden := ((catRowOf st producto).map Categoria.orden).getD 999
    nombre_cat := (catRowOf st producto).map Categoria.nombre }

/-- Model of `ORDER BY categoria_orden, c.nombre, lp.producto`: ascending, and the
NULL `c.nombre` of unmapped products sorts before every string (SQLite). -/
def optStrLt (a b : Option String) : Prop :=
  match a, b with
  | none, none => False
  | none, some _ => True
  | some _, none => False
  | some x, some y => x < y

instance : DecidableRel optStrLt := fun a b => by
  cases a <;> cases b <;> simp only [optStrLt] <;> infer_instance

/-- The three-part lexicographic `ORDER BY` key of line 437. -/
def listaLe (a b : ListaRow) : Prop :=
  a.categoria_orden < b.categoria_orden ∨
    (a.categoria_orden = b.categoria_orden ∧
      (optStrLt a.nombre_cat b.nombre_cat ∨
        (a.nombre_cat = b.nombre_cat ∧ a.producto ≤ b.producto)))

instance : DecidableRel listaLe := fun a b => by
  unfold listaLe; infer_instance

instance : IsTotal ListaRow listaLe where
  total a b := by
    unfold listaLe
    rcases lt_trichotomy a.categoria_orden b.categoria_orden with h | h | h
    · exact Or.inl (Or.inl h)
    · rcases ha : a.nombre_cat with _ | x <;> rcases hb : b.nombre_cat with _ | y
      · rcases le_total a.producto b.producto with h2 | h2
        · exact Or.inl (Or.inr ⟨h, Or.inr ⟨rfl, h2⟩⟩)
        · exact Or.inr (Or.inr ⟨h.symm, Or.inr ⟨rfl, h2⟩⟩)
      · exact Or.inl (Or.inr ⟨h, Or.inl trivial⟩)
      · exact Or.inr (Or.inr ⟨h.symm, Or.inl trivial⟩)
      · rcases lt_trichotomy x y with h2 | h2 | h2
        · exact Or.inl (Or.inr ⟨h, Or.inl h2⟩)
        · subst h2
          rcases le_total a.producto b.producto with h3 | h3
          · exact Or.inl (Or.inr ⟨h, Or.inr ⟨rfl, h3⟩⟩)
          · exact Or.inr (Or.inr ⟨h.symm, Or.inr ⟨rfl, h3⟩⟩)
        · exact Or.inr (Or.inr ⟨h.symm, Or.inl h2⟩)
    · exact Or.inr (Or.inl h)

theorem optStrLt_trans {a b c : Option String} :
    optStrLt a b → optStrLt b c → optStrLt a c := by
  cases a <;> cases b <;> cases c <;> simp only [optStrLt] <;>
    first
      | exact fun h1 h2 => h1.trans h2
      | exact fun _ _ => trivial
      | exact fun h _ => h.elim
      | exact fun _ h => h.elim

instance : IsTrans ListaRow listaLe where
  trans a b c hab hbc := by
    unfold listaLe at *
    rcases hab with h1 | ⟨e1, r1⟩ <;> rcases hbc with h2 | ⟨e2, r2⟩
    · exact Or.inl (h1.trans h2)
    · exact Or.inl (e2 ▸ h1)
    · exact Or.inl (e1 ▸ h2)
    · refine Or.inr ⟨e1.trans e2, ?_⟩
      rcases r1 with l1 | ⟨ne1, p1⟩ <;> rcases r2 with l2 | ⟨ne2, p2⟩
      · exact Or.inl (optStrLt_trans l1 l2)
      · exact Or.inl (ne2 ▸ l1)
      · exact Or.inl (ne1 ▸ l2)
      · exact Or.inr ⟨ne1.trans ne2, p1.trans p2⟩

/-- The full grouped-and-sorted result set of the SELECT: one row per
distinct product among the joined rows, sorted by the `ORDER BY` key. -/
def listaRows (st : Store) (fecha : String) : List ListaRow :=
  let joined := joinRows st fecha
  (((joined.map (fun lp => lp.1.producto)).dedup).map (filaDe st joined)).insertionSort
    listaLe

/-- One step of the regrouping loop of lines 444–452: append the product
under its category key, creating the key at the end on first sight
(Python dicts preserve insertion order). -/
def addCat (acc : List (String × List (String × Int))) (cat : String)
    (e : String × Int) : List (String × List (String × Int)) :=
  if (acc.lookup cat).isSome then
    acc.map (fun p => if p.1 = cat then (p.1, p.2 ++ [e]) else p)
  else acc ++ [(cat, [e])]

/-- The `por_categoria` loop of lines 444–452. -/
def regroup (rows : List ListaRow) : List (String × List (String × Int)) :=
  rows.foldl (fun acc it => addCat acc it.categoria (it.producto, it.cantidad_total)) []

/-- Model of `get_lista_compras(fecha)`: the ordered mapping category → products. -/
def get_lista_compras (st : Store) (fecha : String) :
    List (String × List (String × Int)) :=
  regroup (listaRows st fecha)

/-! ## `create_categoria` (lines 322–336) -/

/-- Model of `SELECT MAX(orden) FROM categorias` then `max_orden or 0`:
NULL (empty table) becomes 0, and so does an actual maximum of 0. -/
def maxOrden (st : Store) : Int :=
  match (st.categorias.map Categoria.orden).max? with
  | none => 0
  | some m => if m = 0 then 0 else m

/-- Model of `create_categoria(nombre)`: reject a duplicate name (UNIQUE constraint →
`IntegrityError` → HTTP 400), otherwise insert with `orden = max + 1`. -/
def create_categoria (st : Store) (nombre : String) : Except Unit Store :=
  if st.categorias.any (fun c => c.nombre = nombre) then .error ()
  else
    .ok { st with categorias := st.categorias ++
      [{ id := (st.categorias.map Categoria.id).foldl max 0 + 1
         nombre := nombre, orden := maxOrden st + 1 }] }

/-! ## Specification helpers (used only to state properties) -/

/-- The line item `l` belongs to a pending order with delivery date `d`
(the WHERE clause of line 435 seen from one line item). -/
def pendingParentB (st : Store) (l : Linea) (d : String) : Bool :=
  st.pedidos.any (fun p =>
    p.id = l.pedido_id ∧ p.fecha_entrega = d ∧ p.status = "pendiente")

/-- The numeric fields of a row convert without raising (no condition on
`Created at`): hypothesis under which ingestion cannot fail. -/
def numericOk (r : Row) : Prop :=
  pyFloatField r.total ≠ .error () ∧
  (¬ fld r.lineitemName = "" →
    pyIntField r.lineitemQuantity ≠ .error () ∧
      pyFloatField r.lineitemPrice ≠ .error ())

/-- The sort key a category name receives in `get_lista_compras`:
`(999, NULL)` for the synthetic `Sin Categoría`, the category's
`(orden, nombre)` otherwise. -/
def catKey (st : Store) (s : String) : Int × Option String :=
  if s = "Sin Categoría" then (999, none)
  else
    match st.categorias.find? (fun c => c.nombre = s) with
    | some c => (c.orden, some c.nombre)
    | none => (999, none)

/-- Strict lexicographic order on category sort keys (`NULL` first). -/
def keyLt (a b : Int × Option String) : Prop :=
  a.1 < b.1 ∨ (a.1 = b.1 ∧ optStrLt a.2 b.2)

/-! ## Concrete test fixtures -/

/-- A complete first row of order `#2002` (with delivery date). -/
def rowA : Row :=
  { Row.blank with
    name := some "#2002"
    email := some "ana@x.cl"
    noteAttributes :=
      some "Comuna de Entrega: Providencia\nFecha de Entrega: 2024-05-10"
    createdAt := some "2024-05-01 10:00:00 -0400"
    shippingName := some "Ana"
    shippingAddress1 := some "Calle 1"
    phone := some "+5691"
    total := some "5990"
    lineitemName := some "Leche"
    lineitemQuantity := some "1"
    lineitemPrice := some "1990"
    lineitemSku := some "SK1" }

/-- A continuation row of order `#2002` carrying only a line item (its
scalar fields differ from `rowA`'s, so overwriting would be observable). -/
def rowB : Row :=
  { Row.blank with
    name := some "#2002"
    email := some "otro@x.cl"
    total := some "1"
    lineitemName := some "Pan"
    lineitemQuantity := some "2" }

/-- An order row without any delivery date in its note attributes. -/
def rowNoDate : Row :=
  { Row.blank with
    name := some "#9001"
    noteAttributes := some "Comuna de Entrega: Macul"
    lineitemName := some "Manzana"
    lineitemQuantity := some "3" }

/-- The one-order file used against claim C1. -/
def c1File : List Row := [rowNoDate]

/-- The candidate order `parse_shopify_csv` produces for `rowNoDate`. -/
def c4Order : Order :=
  { order_number := "#9001", email := "", comuna := some "Macul"
    fecha_entrega := none, nombre_cliente := "", direccion := ""
    telefono := "", total := 0, created_at := none
    items := [{ producto := "Manzana", cantidad := 3, precio := 0, sku := "" }] }

/-- A row whose `Lineitem quantity` cannot be converted by `int(...)`. -/
def rowBadQty : Row :=
  { Row.blank with
    name := some "#3001"
    noteAttributes := some "Fecha de Entrega: 2024-05-10"
    lineitemName := some "Pera"
    lineitemQuantity := some "abc" }

/-- A two-order file whose first order carries the malformed quantity. -/
def c2File : List Row := [rowBadQty, rowA]

/-- A row whose `Total` cannot be converted by `float(...)`. -/
def rowBadTotal : Row :=
  { Row.blank with
    name := some "#3002"
    total := some "abc"
    lineitemName := some "Pera" }

/-- A row with an unparseable creation timestamp (numeric fields fine). -/
def rowGarbageDate : Row :=
  { Row.blank with
    name := some "#4001"
    createdAt := some "yesterday at noon"
    lineitemName := some "Queso" }

/-- A pending order used by the aggregation fixtures. -/
def pedFix (i : Nat) (numero fecha status : String) : Pedido :=
  { id := i, order_number := numero, email := "", comuna := none
    fecha_entrega := fecha, direccion := "", telefono := ""
    nombre_cliente := "", total := 0, created_at := none, status := status }

/-- Store refuting claim C6: the real category `Abc` has display order 999,
products `a` (unmapped) and `b` (mapped to `Abc`) are both pending for
2024-05-10. -/
def stC6 : Store where
  pedidos := [pedFix 1 "#1" "2024-05-10" "pendiente"]
  lineas := [⟨1, 1, "a", 2, 0, ""⟩, ⟨2, 1, "b", 3, 0, ""⟩]
  categorias := [⟨1, "Abc", 999⟩]
  producto_categoria := [⟨"b", 1⟩]
  nextPedidoId := 2
  nextLineaId := 3

/-- Aggregation witness store: order 1 pending on 2024-05-10 (Manzana ×3,
Pan ×1), order 2 completed on the same date (Manzana ×5), order 3 pending
on another date (Manzana ×7); `Manzana` is mapped to `Frutas`. -/
def stW : Store where
  pedidos :=
    [pedFix 1 "#1" "2024-05-10" "pendiente",
     pedFix 2 "#2" "2024-05-10" "completado",
     pedFix 3 "#3" "2024-05-11" "pendiente"]
  lineas :=
    [⟨1, 1, "Manzana", 3, 0, ""⟩, ⟨2, 1, "Pan", 1, 0, ""⟩,
     ⟨3, 2, "Manzana", 5, 0, ""⟩, ⟨4, 3, "Manzana", 7, 0, ""⟩]
  categorias := [⟨1, "Frutas", 1⟩, ⟨2, "Verduras", 2⟩]
  producto_categoria := [⟨"Manzana", 1⟩]
  nextPedidoId := 4
  nextLineaId := 5

/-! ## Proof-auxiliary recursors (proved equal to the folds they mirror) -/

/-- Store component of the ingestion loop, as a structural recursion. -/
def ingestStore (st : Store) : List Order → Store
  | [] => st
  | o :: os =>
    if numbersB st o.order_number then ingestStore st os
    else if pyFalsyStr o.fecha_entrega then ingestStore st os
    else ingestStore (insertOrder st o (fld o.fecha_entrega)) os

/-- Counter component of the ingestion loop, as a structural recursion. -/
def runCounts (st : Store) : List Order → UploadCounts
  | [] => ⟨0, 0, 0⟩
  | o :: os =>
    if numbersB st o.order_number then
      let r := runCounts st os
      { r with duplicados := r.duplicados + 1 }
    else if pyFalsyStr o.fecha_entrega then
      let r := runCounts st os
      { r with sin_fecha := r.sin_fecha + 1 }
    else
      let r := runCounts (insertOrder st o (fld o.fecha_entrega)) os
      { r with nuevos := r.nuevos + 1 }

/-- The `ORDER BY` key of a grouped shopping-list row. -/
def rowKey (r : ListaRow) : Int × Option String := (r.categoria_orden, r.nombre_cat)

/-- Strict version of `listaLe` on rows with distinct products. -/
def rowStrict (a b : ListaRow) : Prop :=
  keyLt (rowKey a) (rowKey b) ∨ (rowKey a = rowKey b ∧ a.producto < b.producto)

/-- Invariant of the grouping loop: after consuming the rows `seen`, the
accumulated dict `acc` has pairwise-distinct keys, its keys are exactly the
non-empty order numbers seen so far, and each entry's scalar fields come
from the first row carrying its key while its items are the converted item
rows carrying its key, in order. -/
def AccInv (seen : List Row) (acc : List (String × Order)) : Prop :=
  (acc.map Prod.fst).Nodup ∧
  (∀ k, k ∈ acc.map Prod.fst ↔ (¬ k = "" ∧ ∃ r ∈ seen, fld r.name = k)) ∧
  (∀ k o, (k, o) ∈ acc → o.order_number = k ∧
    (∃ r, firstRowFor seen k = some r ∧
      mkOrderScalars r = .ok { o with items := [] }) ∧
    mapME itemOfRow (itemRowsFor seen k) = .ok o.items)

/-! # Theorems -/

/-! ## The ingestion fold -/

theorem upload_foldl_spec (os : List Order) : ∀ (st : Store) (c : UploadCounts),
    os.foldl ingestOne (st, c) =
      (ingestStore st os,
       ⟨c.nuevos + (runCounts st os).nuevos,
        c.duplicados + (runCounts st os).duplicados,
        c.sin_fecha + (runCounts st os).sin_fecha⟩) := by
  induction os with
  | nil => intro st c; simp [ingestStore, runCounts]
  | cons o os ih =>
    intro st c
    simp only [List.foldl_cons, ingestOne]
    by_cases h1 : numbersB st o.order_number = true
    · simp only [h1, if_true, ih, ingestStore, runCounts]
      refine Prod.ext rfl ?_
      simp [h1]
      omega
    · simp only [Bool.not_eq_true] at h1
      by_cases h2 : pyFalsyStr o.fecha_entrega = true
      · simp only [h1, h2, Bool.false_eq_true, if_false, if_true, ih,
          ingestStore, runCounts]
        refine Prod.ext rfl ?_
        simp [h1, h2]
        omega
      · simp only [Bool.not_eq_true] at h2
        simp only [h1, h2, Bool.false_eq_true, if_false, ih,
          ingestStore, runCounts]
        refine Prod.ext rfl ?_
        simp [h1, h2]
        omega

theorem upload_csv_spec (st : Store) (os : List Order) :
    upload_csv st os =
      (ingestStore st os,
       ⟨(runCounts st os).nuevos, (runCounts st os).duplicados,
        (runCounts st os).sin_fecha, os.length⟩) := by
  unfold upload_csv
  rw [upload_foldl_spec]
  simp

theorem numbersB_insertOrder (st : Store) (o : Order) (f n : String) :
    numbersB (insertOrder st o f) n =
      (numbersB st n || decide (o.order_number = n)) := by
  simp [numbersB, insertOrder, List.any_append]

theorem numbersB_mono {st : Store} {os : List Order} {n : String}
    (h : numbersB st n = true) : numbersB (ingestStore st os) n = true := by
  induction os generalizing st with
  | nil => simpa [ingestStore]
  | cons o os ih =>
    unfold ingestStore
    by_cases h1 : numbersB st o.order_number = true
    · simpa [h1] using ih h
    · by_cases h2 : pyFalsyStr o.fecha_entrega = true
      · simpa [h1, h2] using ih h
      · simp only [h1, h2, Bool.false_eq_true, if_false]
        exact ih (by rw [numbersB_insertOrder, h]; rfl)

theorem mem_ingest_numbers {os : List Order} {o : Order} (ho : o ∈ os)
    (hf : pyFalsyStr o.fecha_entrega = false) (st : Store) :
    numbersB (ingestStore st os) o.order_number = true := by
  induction os generalizing st with
  | nil => cases ho
  | cons a os ih =>
    unfold ingestStore
    rcases List.mem_cons.mp ho with rfl | ho'
    · by_cases h1 : numbersB st o.order_number = true
      · simpa [h1] using numbersB_mono h1
      · simp only [h1, hf, Bool.false_eq_true, if_false]
        exact numbersB_mono (by rw [numbersB_insertOrder]; simp)
    · by_cases h1 : numbersB st a.order_number = true
      · simpa [h1] using ih ho' st
      · by_cases h2 : pyFalsyStr a.fecha_entrega = true
        · simpa [h1, h2] using ih ho' st
        · simp only [h1, h2, Bool.false_eq_true, if_false]
          exact ih ho' _

theorem ingest_unchanged {st : Store} {os : List Order}
    (h : ∀ o ∈ os,
      numbersB st o.order_number = true ∨ pyFalsyStr o.fecha_entrega = true) :
    ingestStore st os = st ∧ (runCounts st os).nuevos = 0 ∧
      (runCounts st os).duplicados + (runCounts st os).sin_fecha = os.length := by
  induction os with
  | nil => exact ⟨rfl, rfl, rfl⟩
  | cons o os ih =>
    obtain ⟨h1, h2, h3⟩ := ih (fun x hx => h x (List.mem_cons_of_mem o hx))
    rcases h o (List.mem_cons_self o os) with ho | ho
    · unfold ingestStore runCounts
      simp only [ho, if_true]
      exact ⟨h1, h2, by simpa [List.length_cons] using by omega⟩
    · unfold ingestStore runCounts
      by_cases hd : numbersB st o.order_number = true
      · simp only [hd, if_true]
        exact ⟨h1, h2, by simpa [List.length_cons] using by omega⟩
      · simp only [hd, Bool.false_eq_true, if_false, ho, if_true]
        exact ⟨h1, h2, by simpa [List.length_cons] using by omega⟩

/-! ## Claim C1 -/

/-- Claim C1 as stated is false: for the file `c1File`, whose single
candidate order has no delivery date, the first ingestion into the empty
store persists nothing (`sin_fecha = 1`), so the second ingestion of the
identical file again returns `sin_fecha = 1` and `duplicados = 0 ≠ 1 =
total` (the order is re-rejected for its missing date, not detected as a
duplicate). -/
theorem c1_counterexample :
    (uploadEndpoint Store.empty c1File).bind
        (fun p => (uploadEndpoint p.1 c1File).map (fun q => q.2)) =
      .ok ⟨0, 0, 1, 1⟩ ∧
    ¬ ((⟨0, 0, 1, 1⟩ : UploadResult).duplicados =
        (⟨0, 0, 1, 1⟩ : UploadResult).total) := by
  exact ⟨rfl, by decide⟩

/-- Claim C1 amended: re-ingesting any candidate list into the store that
resulted from a first ingestion accepts nothing, leaves the store unchanged,
and splits the whole file into `duplicados + sin_fecha = total`; `duplicate
= total` holds only when every candidate carries a delivery date, since a
candidate without one is counted `sin_fecha` again on every pass. -/
theorem c1_amended (st : Store) (os : List Order) :
    (upload_csv (upload_csv st os).1 os).2.nuevos = 0 ∧
    (upload_csv (upload_csv st os).1 os).2.duplicados +
        (upload_csv (upload_csv st os).1 os).2.sin_fecha =
      (upload_csv (upload_csv st os).1 os).2.total ∧
    (upload_csv (upload_csv st os).1 os).1 = (upload_csv st os).1 := by
  have hkey : ∀ o ∈ os,
      numbersB (ingestStore st os) o.order_number = true ∨
        pyFalsyStr o.fecha_entrega = true := by
    intro o ho
    cases hf : pyFalsyStr o.fecha_entrega
    · exact Or.inl (mem_ingest_numbers ho hf st)
    · exact Or.inr rfl
  obtain ⟨h1, h2, h3⟩ := ingest_unchanged hkey
  rw [upload_csv_spec st os]
  rw [upload_csv_spec]
  simpa using ⟨h2, h3, h1⟩

/-! ## Claim C10 -/

/-- Claim C10: `completar_pedido` (whose endpoint returns
`{"success": True}` unconditionally, for existing and non-existing ids
alike) updates exactly the status of the orders whose id matches: with no
match the store is untouched; a matching order keeps every other field and
becomes `completado`; non-matching orders and all other tables are
unchanged. -/
theorem c10_completar_frame (st : Store) (pid : Nat) :
    ((∀ p ∈ st.pedidos, ¬ p.id = pid) → completar_pedido st pid = st) ∧
    (∀ p ∈ st.pedidos, p.id = pid →
      { p with status := "completado" } ∈ (completar_pedido st pid).pedidos) ∧
    (∀ p ∈ st.pedidos, ¬ p.id = pid → p ∈ (completar_pedido st pid).pedidos) ∧
    (∀ q ∈ (completar_pedido st pid).pedidos, ∃ p ∈ st.pedidos,
      q.id = p.id ∧ q.order_number = p.order_number ∧ q.email = p.email ∧
      q.comuna = p.comuna ∧ q.fecha_entrega = p.fecha_entrega ∧
      q.direccion = p.direccion ∧ q.telefono = p.telefono ∧
      q.nombre_cliente = p.nombre_cliente ∧ q.total = p.total ∧
      q.created_at = p.created_at ∧
      q.status = (if p.id = pid then "completado" else p.status)) ∧
    ((completar_pedido st pid).lineas = st.lineas ∧
      (completar_pedido st pid).categorias = st.categorias ∧
      (completar_pedido st pid).producto_categoria = st.producto_categoria ∧
      (completar_pedido st pid).pedidos.length = st.pedidos.length) := by
  refine ⟨?_, ?_, ?_, ?_, rfl, rfl, rfl, by simp [completar_pedido]⟩
  · intro h
    unfold completar_pedido
    have heq : st.pedidos.map (fun p =>
        if p.id = pid then { p with status := "completado" } else p) =
        st.pedidos := by
      rw [List.map_congr_left (fun p hp => if_neg (h p hp))]
      exact List.map_id _
    rw [heq]
  · intro p hp hid
    unfold completar_pedido
    refine List.mem_map.mpr ⟨p, hp, ?_⟩
    rw [if_pos hid]
  · intro p hp hid
    unfold completar_pedido
    refine List.mem_map.mpr ⟨p, hp, ?_⟩
    rw [if_neg hid]
  · intro q hq
    unfold completar_pedido at hq
    obtain ⟨p, hp, hpq⟩ := List.mem_map.mp hq
    by_cases hid : p.id = pid
    · rw [if_pos hid] at hpq
      exact ⟨p, hp, by rw [← hpq, if_pos hid]; simp⟩
    · rw [if_neg hid] at hpq
      exact ⟨p, hp, by rw [← hpq, if_neg hid]; simp⟩

/-- Witness for C10 on a concrete store: completing order id 1 of `stW`
marks it completed while keeping order 2 and all line items intact. -/
theorem c10_completar_frame_witness :
    { pedFix 1 "#1" "2024-05-10" "pendiente" with status := "completado" } ∈
        (completar_pedido stW 1).pedidos ∧
      pedFix 2 "#2" "2024-05-10" "completado" ∈ (completar_pedido stW 1).pedidos ∧
      (completar_pedido stW 1).lineas = stW.lineas := by
  refine ⟨?_, ?_, ?_⟩
  · exact (c10_completar_frame stW 1).2.1 (pedFix 1 "#1" "2024-05-10" "pendiente")
      (by simp [stW]) (by decide)
  · exact (c10_completar_frame stW 1).2.2.1 (pedFix 2 "#2" "2024-05-10" "completado")
      (by simp [stW]) (by decide)
  · exact (c10_completar_frame stW 1).2.2.2.2.1

/-! ## Claim C2 -/

theorem processRow_item_err (acc : List (String × Order)) (r : Row)
    (hn : ¬ fld r.name = "") (hi : ¬ fld r.lineitemName = "")
    (hq : pyIntField r.lineitemQuantity = .error ()) :
    processRow acc r = .error () := by
  have hitem : itemOfRow r = .error () := by
    unfold itemOfRow
    rw [hq]
  unfold processRow
  rw [if_neg hn]
  cases hstep : (if (List.lookup (fld r.name) acc).isSome = true then
      Except.ok acc
    else
      match mkOrderScalars r with
      | .error e => .error e
      | .ok o => Except.ok (acc ++ [(fld r.name, o)])) with
  | error e => cases e; rfl
  | ok acc1 =>
    simp only []
    rw [if_neg hi, hitem]

theorem parseRows_err {rows : List Row}
    (h : ∃ r ∈ rows, ¬ fld r.name = "" ∧ ¬ fld r.lineitemName = "" ∧
      pyIntField r.lineitemQuantity = .error ()) :
    ∀ acc, parseRows rows acc = .error () := by
  induction rows with
  | nil => obtain ⟨r, hr, -⟩ := h; cases hr
  | cons a rows ih =>
    intro acc
    obtain ⟨r, hr, h1, h2, h3⟩ := h
    rcases List.mem_cons.mp hr with rfl | hr'
    · unfold parseRows
      rw [processRow_item_err acc r h1 h2 h3]
    · unfold parseRows
      cases hp : processRow acc a with
      | error e => cases e; rfl
      | ok acc1 => exact ih ⟨r, hr', h1, h2, h3⟩ acc1

/-- Claim C2 as stated is false: in the two-order file `c2File` the first
order's quantity `"abc"` makes `int(...)` raise inside
`parse_shopify_csv`, so the whole upload aborts and the second, perfectly
well-formed order `#2002` (which parses fine on its own, second conjunct)
is not processed either. -/
theorem c2_counterexample :
    uploadEndpoint Store.empty c2File = .error () ∧
    (parse_shopify_csv [rowA]).isOk = true := by
  exact ⟨rfl, rfl⟩

/-- Claim C2 amended: ingestion is *not* fail-soft against malformed
records: one row with an order number, a line item, and a quantity that
`int(...)` rejects makes `parse_shopify_csv` raise, so the whole batch is
aborted (no order of the file is processed or persisted; the store is not
touched, since parsing runs before the database loop).  Only *missing or
empty* numeric fields are tolerated, via defaulting. -/
theorem c2_amended (rows : List Row)
    (h : ∃ r ∈ rows, ¬ fld r.name = "" ∧ ¬ fld r.lineitemName = "" ∧
      pyIntField r.lineitemQuantity = .error ()) :
    parse_shopify_csv rows = .error () ∧
    ∀ st, uploadEndpoint st rows = .error () := by
  have hp : parse_shopify_csv rows = .error () := by
    unfold parse_shopify_csv
    rw [parseRows_err h []]
  exact ⟨hp, fun st => by unfold uploadEndpoint; rw [hp]⟩

/-- Witness for the amended C2 at the concrete file `c2File`. -/
theorem c2_amended_witness :
    (¬ fld rowBadQty.name = "" ∧ ¬ fld rowBadQty.lineitemName = "" ∧
      pyIntField rowBadQty.lineitemQuantity = .error ()) ∧
    parse_shopify_csv c2File = .error () := by
  have hh : ¬ fld rowBadQty.name = "" ∧ ¬ fld rowBadQty.lineitemName = "" ∧
      pyIntField rowBadQty.lineitemQuantity = .error () :=
    ⟨by decide, by decide, by rfl⟩
  exact ⟨hh,
    (c2_amended c2File ⟨rowBadQty, by simp [c2File], hh⟩).1⟩

/-! ## Claim C7: the grouping invariant -/

theorem lookup_isSome_iff_mem_keys {β : Type} (k : String) (acc : List (String × β)) :
    (List.lookup k acc).isSome = true ↔ k ∈ acc.map Prod.fst := by
  induction acc with
  | nil => simp [List.lookup]
  | cons a acc ih =>
    rcases a with ⟨x, y⟩
    cases hx : k == x with
    | true =>
      simp only [List.lookup, hx]
      simp [beq_iff_eq.mp hx]
    | false =>
      simp only [List.lookup, hx]
      have hne : ¬ k = x := by simpa using (beq_eq_false_iff_ne.mp hx)
      simp [ih, hne]

theorem firstRowFor_append_found {seen : List Row} {k : String} {r₀ : Row}
    (h : firstRowFor seen k = some r₀) (r : Row) :
    firstRowFor (seen ++ [r]) k = some r₀ := by
  unfold firstRowFor at *
  rw [List.find?_append, h]
  rfl

theorem firstRowFor_append_new {seen : List Row} {k : String} {r : Row}
    (h : ∀ r' ∈ seen, ¬ fld r'.name = k) (hr : fld r.name = k) :
    firstRowFor (seen ++ [r]) k = some r := by
  unfold firstRowFor
  rw [List.find?_append]
  have h0 : List.find? (fun r' => fld r'.name = k) seen = none :=
    List.find?_eq_none.mpr (by intro x hx; simpa using h x hx)
  rw [h0]
  simp [List.find?_cons, hr]

theorem itemRowsFor_append_skip {k : String} {r : Row} (seen : List Row)
    (h : ¬ fld r.name = k ∨ fld r.lineitemName = "") :
    itemRowsFor (seen ++ [r]) k = itemRowsFor seen k := by
  unfold itemRowsFor
  rw [List.filter_append]
  have : List.filter (fun r => fld r.name = k ∧ ¬ fld r.lineitemName = "") [r] =
      [] := by
    rcases h with h | h <;> simp [List.filter, h]
  rw [this, List.append_nil]

theorem itemRowsFor_append_add {k : String} {r : Row} (seen : List Row)
    (h1 : fld r.name = k) (h2 : ¬ fld r.lineitemName = "") :
    itemRowsFor (seen ++ [r]) k = itemRowsFor seen k ++ [r] := by
  unfold itemRowsFor
  rw [List.filter_append]
  congr 1
  simp [List.filter, h1, h2]

theorem mapME_append_ok {f : Row → Except Unit Item} {xs : List Row}
    {l : List Item} (h1 : mapME f xs = .ok l) {x : Row} {b : Item}
    (h2 : f x = .ok b) : mapME f (xs ++ [x]) = .ok (l ++ [b]) := by
  induction xs generalizing l with
  | nil =>
    unfold mapME at h1
    cases h1
    simp [mapME, h2]
  | cons a xs ih =>
    rw [List.cons_append]
    unfold mapME at h1 ⊢
    cases ha : f a with
    | error e => rw [ha] at h1; cases h1
    | ok v =>
      rw [ha] at h1
      cases hm : mapME f xs with
      | error e => rw [hm] at h1; cases h1
      | ok vs =>
        rw [hm] at h1
        cases h1
        rw [ih hm]
        rfl

theorem addItem_keys (k : String) (it : Item) (acc : List (String × Order)) :
    (addItem k it acc).map Prod.fst = acc.map Prod.fst := by
  unfold addItem
  rw [List.map_map]
  apply List.map_congr_left
  intro p _
  by_cases h : p.1 = k <;> simp [h]

theorem processRow_empty {r : Row} (hn : fld r.name = "")
    (acc : List (String × Order)) : processRow acc r = .ok acc := by
  simp [processRow, hn]

theorem processRow_known_noitem {r : Row} {acc : List (String × Order)}
    (hn : ¬ fld r.name = "")
    (hlk : (List.lookup (fld r.name) acc).isSome = true)
    (hi : fld r.lineitemName = "") : processRow acc r = .ok acc := by
  simp [processRow, hn, hlk, hi]

theorem processRow_known_item {r : Row} {acc : List (String × Order)} {it : Item}
    (hn : ¬ fld r.name = "")
    (hlk : (List.lookup (fld r.name) acc).isSome = true)
    (hi : ¬ fld r.lineitemName = "") (hit : itemOfRow r = .ok it) :
    processRow acc r = .ok (addItem (fld r.name) it acc) := by
  simp [processRow, hn, hlk, hi, hit]

theorem processRow_new_noitem {r : Row} {acc : List (String × Order)} {o₀ : Order}
    (hn : ¬ fld r.name = "")
    (hlk : (List.lookup (fld r.name) acc).isSome = false)
    (hs : mkOrderScalars r = .ok o₀) (hi : fld r.lineitemName = "") :
    processRow acc r = .ok (acc ++ [(fld r.name, o₀)]) := by
  simp [processRow, hn, hlk, hs, hi]

theorem processRow_new_item {r : Row} {acc : List (String × Order)}
    {o₀ : Order} {it : Item} (hn : ¬ fld r.name = "")
    (hlk : (List.lookup (fld r.name) acc).isSome = false)
    (hs : mkOrderScalars r = .ok o₀) (hi : ¬ fld r.lineitemName = "")
    (hit : itemOfRow r = .ok it) :
    processRow acc r = .ok (addItem (fld r.name) it (acc ++ [(fld r.name, o₀)])) := by
  simp [processRow, hn, hlk, hs, hi, hit]

theorem processRow_scalar_err {r : Row} {acc : List (String × Order)}
    (hn : ¬ fld r.name = "")
    (hlk : (List.lookup (fld r.name) acc).isSome = false)
    (hs : mkOrderScalars r = .error ()) : processRow acc r = .error () := by
  simp [processRow, hn, hlk, hs]

theorem processRow_item_err2 {r : Row} {acc : List (String × Order)}
    (hn : ¬ fld r.name = "") (hi : ¬ fld r.lineitemName = "")
    (hit : itemOfRow r = .error ()) : processRow acc r = .error () := by
  simp only [processRow, hn, if_false]
  cases hstep : (if (List.lookup (fld r.name) acc).isSome = true then
      Except.ok acc
    else
      match mkOrderScalars r with
      | .error e => .error e
      | .ok o => Except.ok (acc ++ [(fld r.name, o)])) with
  | error e => cases e; rfl
  | ok acc1 => simp [hi, hit]

theorem mkOrderScalars_ok_shape {r : Row} {o₀ : Order}
    (hs : mkOrderScalars r = .ok o₀) :
    o₀.order_number = fld r.name ∧ o₀.items = [] := by
  unfold mkOrderScalars at hs
  cases hft : pyFloatField r.total with
  | error e => rw [hft] at hs; cases hs
  | ok t => rw [hft] at hs; cases hs; exact ⟨rfl, rfl⟩

theorem keys_iff_extend {K : List String} {seen : List Row} {r : Row}
    (hkeys : ∀ k, k ∈ K ↔ (¬ k = "" ∧ ∃ r' ∈ seen, fld r'.name = k))
    (hcov : fld r.name = "" ∨ fld r.name ∈ K) :
    ∀ k, k ∈ K ↔ (¬ k = "" ∧ ∃ r' ∈ seen ++ [r], fld r'.name = k) := by
  intro k
  rw [hkeys k]
  constructor
  · rintro ⟨hk, r', hr', he⟩
    exact ⟨hk, r', List.mem_append_left _ hr', he⟩
  · rintro ⟨hk, r', hr', he⟩
    rcases List.mem_append.mp hr' with h | h
    · exact ⟨hk, r', h, he⟩
    · rw [List.mem_singleton] at h
      subst h
      rcases hcov with hc | hc
      · exact absurd (he.symm.trans hc) hk
      · obtain ⟨-, r'', hr'', he''⟩ := (hkeys (fld r'.name)).mp hc
        exact ⟨hk, r'', hr'', he''.trans he⟩

theorem keys_iff_append {K : List String} {seen : List Row} {r : Row}
    (hkeys : ∀ k, k ∈ K ↔ (¬ k = "" ∧ ∃ r' ∈ seen, fld r'.name = k))
    (hn : ¬ fld r.name = "") :
    ∀ k, k ∈ K ++ [fld r.name] ↔
      (¬ k = "" ∧ ∃ r' ∈ seen ++ [r], fld r'.name = k) := by
  intro k
  rw [List.mem_append, List.mem_singleton, hkeys k]
  constructor
  · rintro (⟨hk, r', hr', he⟩ | rfl)
    · exact ⟨hk, r', List.mem_append_left _ hr', he⟩
    · exact ⟨hn, r, List.mem_append_right _ (List.mem_singleton_self r), rfl⟩
  · rintro ⟨hk, r', hr', he⟩
    rcases List.mem_append.mp hr' with h | h
    · exact Or.inl ⟨hk, r', h, he⟩
    · rw [List.mem_singleton] at h
      subst h
      exact Or.inr he.symm

theorem entry_keep {seen : List Row} {k : String} {o : Order} {r : Row}
    (h : o.order_number = k ∧
      (∃ r₀, firstRowFor seen k = some r₀ ∧
        mkOrderScalars r₀ = .ok { o with items := [] }) ∧
      mapME itemOfRow (itemRowsFor seen k) = .ok o.items)
    (hskip : ¬ fld r.name = k ∨ fld r.lineitemName = "") :
    o.order_number = k ∧
      (∃ r₀, firstRowFor (seen ++ [r]) k = some r₀ ∧
        mkOrderScalars r₀ = .ok { o with items := [] }) ∧
      mapME itemOfRow (itemRowsFor (seen ++ [r]) k) = .ok o.items := by
  obtain ⟨h1, ⟨r₀, hf, hs⟩, hitems⟩ := h
  refine ⟨h1, ⟨r₀, firstRowFor_append_found hf r, hs⟩, ?_⟩
  rw [itemRowsFor_append_skip seen hskip]
  exact hitems

theorem AccInv_step {seen : List Row} {acc acc₂ : List (String × Order)}
    {r : Row} (hinv : AccInv seen acc)
    (hstep : processRow acc r = .ok acc₂) : AccInv (seen ++ [r]) acc₂ := by
  obtain ⟨hnd, hkeys, hent⟩ := hinv
  by_cases hn : fld r.name = ""
  · rw [processRow_empty hn acc] at hstep
    injection hstep with h
    subst h
    refine ⟨hnd, keys_iff_extend hkeys (Or.inl hn), ?_⟩
    intro k o hko
    have hkne : ¬ k = "" :=
      ((hkeys k).mp (List.mem_map.mpr ⟨(k, o), hko, rfl⟩)).1
    exact entry_keep (hent k o hko) (Or.inl (fun hc => hkne (hc.symm.trans hn)))
  · by_cases hlk : (List.lookup (fld r.name) acc).isSome = true
    · have hkmem0 : fld r.name ∈ acc.map Prod.fst :=
        (lookup_isSome_iff_mem_keys _ acc).mp hlk
      by_cases hi : fld r.lineitemName = ""
      · rw [processRow_known_noitem hn hlk hi] at hstep
        injection hstep with h
        subst h
        refine ⟨hnd, keys_iff_extend hkeys (Or.inr hkmem0), ?_⟩
        intro k o hko
        exact entry_keep (hent k o hko) (Or.inr hi)
      · cases hit : itemOfRow r with
        | error e =>
          cases e
          rw [processRow_item_err2 hn hi hit] at hstep
          cases hstep
        | ok it =>
          rw [processRow_known_item hn hlk hi hit] at hstep
          injection hstep with h
          subst h
          refine ⟨by rw [addItem_keys]; exact hnd,
            by rw [addItem_keys]; exact keys_iff_extend hkeys (Or.inr hkmem0), ?_⟩
          intro k o' hko'
          obtain ⟨⟨k₀, o⟩, hko, heq⟩ := List.mem_map.mp hko'
          by_cases hke : k₀ = fld r.name
          · rw [if_pos (by simpa using hke)] at heq
            injection heq with hk1 hk2
            subst hk1
            obtain ⟨h1, ⟨r₀, hf, hs⟩, hitems⟩ := hent k₀ o hko
            subst hke
            refine ⟨by rw [← hk2]; exact h1, ?_, ?_⟩
            · refine ⟨r₀, firstRowFor_append_found hf r, ?_⟩
              rw [← hk2]
              exact hs
            · rw [itemRowsFor_append_add seen rfl hi, ← hk2]
              exact mapME_append_ok hitems hit
          · rw [if_neg (by simpa using hke)] at heq
            injection heq with hk1 hk2
            subst hk1
            subst hk2
            exact entry_keep (hent k₀ o hko) (Or.inl (fun hc => hke hc.symm))
    · have hlk' : (List.lookup (fld r.name) acc).isSome = false := by
        cases h : (List.lookup (fld r.name) acc).isSome with
        | true => exact absurd h hlk
        | false => rfl
      have hnkmem : ¬ fld r.name ∈ acc.map Prod.fst := by
        rw [← lookup_isSome_iff_mem_keys]
        simp [hlk']
      have hnoseen : ∀ r' ∈ seen, ¬ fld r'.name = fld r.name := by
        intro r' hr' hc
        exact hnkmem ((hkeys _).mpr ⟨hn, r', hr', hc⟩)
      have hitemsnil : itemRowsFor seen (fld r.name) = [] := by
        unfold itemRowsFor
        rw [List.filter_eq_nil_iff]
        intro x hx
        simp [hnoseen x hx]
      cases hs : mkOrderScalars r with
      | error e =>
        cases e
        rw [processRow_scalar_err hn hlk' hs] at hstep
        cases hstep
      | ok o₀ =>
        obtain ⟨ho₀num, ho₀items⟩ := mkOrderScalars_ok_shape hs
        have ho₀eta : ({ o₀ with items := [] } : Order) = o₀ := by
          rw [← ho₀items]
        have hfirst : firstRowFor (seen ++ [r]) (fld r.name) = some r :=
          firstRowFor_append_new hnoseen rfl
        have hndnew : ((acc ++ [(fld r.name, o₀)]).map Prod.fst).Nodup := by
          rw [List.map_append]
          simp only [List.map_cons, List.map_nil]
          rw [List.nodup_append]
          exact ⟨hnd, List.nodup_singleton _, by simpa using hnkmem⟩
        have hkeysnew : ∀ k, k ∈ (acc ++ [(fld r.name, o₀)]).map Prod.fst ↔
            (¬ k = "" ∧ ∃ r' ∈ seen ++ [r], fld r'.name = k) := by
          rw [List.map_append]
          simpa using keys_iff_append hkeys hn
        have hold_keep : ∀ k o, (k, o) ∈ acc →
            o.order_number = k ∧
              (∃ r₀, firstRowFor (seen ++ [r]) k = some r₀ ∧
                mkOrderScalars r₀ = .ok { o with items := [] }) ∧
              mapME itemOfRow (itemRowsFor (seen ++ [r]) k) = .ok o.items := by
          intro k o hold
          have hkne2 : ¬ fld r.name = k := by
            intro hc
            exact hnkmem (hc ▸ List.mem_map.mpr ⟨(k, o), hold, rfl⟩)
          exact entry_keep (hent k o hold) (Or.inl hkne2)
        by_cases hi : fld r.lineitemName = ""
        · rw [processRow_new_noitem hn hlk' hs hi] at hstep
          injection hstep with h
          subst h
          refine ⟨hndnew, hkeysnew, ?_⟩
          intro k o hko
          rcases List.mem_append.mp hko with hold | hnew
          · exact hold_keep k o hold
          · rw [List.mem_singleton] at hnew
            injection hnew with hk1 hk2
            subst hk1
            subst hk2
            refine ⟨ho₀num, ⟨r, hfirst, by rw [ho₀eta]; exact hs⟩, ?_⟩
            rw [itemRowsFor_append_skip seen (Or.inr hi), hitemsnil, ho₀items]
            rfl
        · cases hit : itemOfRow r with
          | error e =>
            cases e
            rw [processRow_item_err2 hn hi hit] at hstep
            cases hstep
          | ok it =>
            rw [processRow_new_item hn hlk' hs hi hit] at hstep
            injection hstep with h
            subst h
            refine ⟨by rw [addItem_keys]; exact hndnew,
              by rw [addItem_keys]; exact hkeysnew, ?_⟩
            intro k o' hko'
            obtain ⟨⟨k₀, o⟩, hko, heq⟩ := List.mem_map.mp hko'
            rcases List.mem_append.mp hko with hold | hnew
            · have hkne2 : ¬ k₀ = fld r.name := by
                intro hc
                exact hnkmem (hc ▸ List.mem_map.mpr ⟨(k₀, o), hold, rfl⟩)
              rw [if_neg (by simpa using hkne2)] at heq
              injection heq with hk1 hk2
              subst hk1
              subst hk2
              exact hold_keep k₀ o hold
            · rw [List.mem_singleton] at hnew
              injection hnew with hk1 hk2
              subst hk1
              subst hk2
              rw [if_pos rfl] at heq
              injection heq with hk1 hk2
              subst hk1
              subst hk2
              refine ⟨ho₀num, ⟨r, hfirst, by rw [ho₀eta]; exact hs⟩, ?_⟩
              rw [itemRowsFor_append_add seen rfl hi, hitemsnil, ho₀items]
              exact mapME_append_ok (show mapME itemOfRow [] = .ok [] from rfl) hit

theorem AccInv_run {rows : List Row} : ∀ {seen : List Row}
    {acc res : List (String × Order)}, AccInv seen acc →
    parseRows rows acc = .ok res → AccInv (seen ++ rows) res := by
  induction rows with
  | nil =>
    intro seen acc res hinv h
    unfold parseRows at h
    cases h
    simpa using hinv
  | cons r rows ih =>
    intro seen acc res hinv h
    unfold parseRows at h
    cases hp : processRow acc r with
    | error e => rw [hp] at h; cases h
    | ok acc' =>
      rw [hp] at h
      have h2 := ih (AccInv_step hinv hp) h
      rwa [List.append_assoc, List.singleton_append] at h2

theorem AccInv_nil : AccInv [] [] := by
  refine ⟨List.nodup_nil, ?_, ?_⟩
  · intro k
    simp
  · intro k o h
    exact absurd h (List.not_mem_nil _)

theorem parse_shopify_spec {rows : List Row} {orders : List Order}
    (h : parse_shopify_csv rows = .ok orders) :
    ∃ acc, parseRows rows [] = .ok acc ∧ orders = acc.map Prod.snd ∧
      AccInv rows acc := by
  unfold parse_shopify_csv at h
  cases hp : parseRows rows [] with
  | error e => rw [hp] at h; cases h
  | ok acc =>
    rw [hp] at h
    injection h with h
    exact ⟨acc, rfl, h.symm, by simpa using AccInv_run AccInv_nil hp⟩

theorem parse_grouping_core (rows : List Row) (orders : List Order)
    (h : parse_shopify_csv rows = .ok orders) :
    ∀ o ∈ orders, ∃ r, firstRowFor rows o.order_number = some r ∧
      mkOrderScalars r = .ok { o with items := [] } ∧
      mapME itemOfRow (itemRowsFor rows o.order_number) = .ok o.items := by
  obtain ⟨acc, hacc, horders, hnd, hkeys, hent⟩ := parse_shopify_spec h
  intro o ho
  rw [horders] at ho
  obtain ⟨⟨k, o'⟩, hko, hsnd⟩ := List.mem_map.mp ho
  cases hsnd
  obtain ⟨h1, ⟨r, hf, hs⟩, hitems⟩ := hent k o' hko
  subst h1
  exact ⟨r, hf, hs, hitems⟩

/-- Claim C7: when parsing succeeds, every produced candidate order takes
all its scalar fields from the first row carrying its order number
(`mkOrderScalars` of that row, items aside), and its item list is exactly
the converted line items of all its rows, in order — later rows with the
same number contribute items only and overwrite no scalar field. -/
theorem c7_first_row_wins (rows : List Row) (orders : List Order)
    (h : parse_shopify_csv rows = .ok orders) :
    ∀ o ∈ orders, ∃ r, firstRowFor rows o.order_number = some r ∧
      mkOrderScalars r = .ok { o with items := [] } ∧
      mapME itemOfRow (itemRowsFor rows o.order_number) = .ok o.items :=
  parse_grouping_core rows orders h

/-- Witness for C7: the two-row file `[rowA, rowB]` yields one order whose
scalar fields stem from `rowA` alone, with both items collected. -/
theorem c7_first_row_wins_witness :
    ∃ orders, parse_shopify_csv [rowA, rowB] = .ok orders ∧
      ∀ o ∈ orders, ∃ r, firstRowFor [rowA, rowB] o.order_number = some r ∧
        mkOrderScalars r = .ok { o with items := [] } ∧
        mapME itemOfRow (itemRowsFor [rowA, rowB] o.order_number) = .ok o.items := by
  have hok : (parse_shopify_csv [rowA, rowB]).isOk = true := rfl
  cases hp : parse_shopify_csv [rowA, rowB] with
  | error e => rw [hp] at hok; cases hok
  | ok orders => exact ⟨orders, rfl, c7_first_row_wins [rowA, rowB] orders hp⟩

/-! ## Claim C3 -/

theorem mkOrderScalars_fields {r : Row} {o' : Order}
    (hs : mkOrderScalars r = .ok o') :
    pyFloatField r.total = .ok o'.total ∧
    o'.created_at = parseCreatedAt r.createdAt ∧
    o'.email = fld r.email ∧
    o'.comuna = (parse_note_attributes (fld r.noteAttributes)).comuna ∧
    o'.fecha_entrega =
      (parse_note_attributes (fld r.noteAttributes)).fecha_entrega ∧
    o'.nombre_cliente = orFld r.shippingName r.billingName ∧
    o'.direccion = fld r.shippingAddress1 ∧
    o'.telefono = orFld r.phone r.shippingPhone := by
  unfold mkOrderScalars at hs
  cases hft : pyFloatField r.total with
  | error e => rw [hft] at hs; cases hs
  | ok t =>
    rw [hft] at hs
    cases hs
    exact ⟨rfl, rfl, rfl, rfl, rfl, rfl, rfl, rfl⟩

theorem itemOfRow_fields {r : Row} {it : Item} (hit : itemOfRow r = .ok it) :
    pyIntField r.lineitemQuantity = .ok it.cantidad ∧
    pyFloatField r.lineitemPrice = .ok it.precio ∧
    it.producto = fld r.lineitemName ∧ it.sku = fld r.lineitemSku := by
  unfold itemOfRow at hit
  cases hq : pyIntField r.lineitemQuantity with
  | error e => rw [hq] at hit; cases hit
  | ok q =>
    rw [hq] at hit
    cases hp : pyFloatField r.lineitemPrice with
    | error e => rw [hp] at hit; cases hit
    | ok p =>
      rw [hp] at hit
      cases hit
      exact ⟨rfl, rfl, rfl, rfl⟩

theorem mapME_mem {f : Row → Except Unit Item} :
    ∀ {xs : List Row} {l : List Item}, mapME f xs = .ok l →
      ∀ b ∈ l, ∃ x ∈ xs, f x = .ok b := by
  intro xs
  induction xs with
  | nil =>
    intro l h b hb
    unfold mapME at h
    cases h
    exact absurd hb (List.not_mem_nil b)
  | cons a xs ih =>
    intro l h b hb
    unfold mapME at h
    cases ha : f a with
    | error e => rw [ha] at h; cases h
    | ok v =>
      rw [ha] at h
      cases hm : mapME f xs with
      | error e => rw [hm] at h; cases h
      | ok vs =>
        rw [hm] at h
        cases h
        rcases List.mem_cons.mp hb with rfl | hb'
        · exact ⟨a, List.mem_cons_self a xs, ha⟩
        · obtain ⟨x, hx, hfx⟩ := ih hm b hb'
          exact ⟨x, List.mem_cons_of_mem a hx, hfx⟩

/-- Claim C3 as stated is false: a row whose `Total` field holds the
non-numeric, non-empty string `"abc"` does not produce a candidate order
with total 0 — `float("abc")` raises and `parse_shopify_csv` aborts, so no
candidate order is produced at all. -/
theorem c3_counterexample :
    rowBadTotal.total = some "abc" ∧
    parse_shopify_csv [rowBadTotal] = .error () := by
  exact ⟨rfl, rfl⟩

/-- Claim C3 amended: when parsing succeeds, each order's total is the
`float(...)` value of the *first* row carrying its number, and it defaults
to 0 exactly when that field is missing or empty (likewise quantity → 1 and
price → 0 for each item row); a present-but-unparseable numeric field does
not default — it raises and aborts the whole parse. -/
theorem c3_amended (rows : List Row) (orders : List Order)
    (h : parse_shopify_csv rows = .ok orders) :
    (∀ o ∈ orders, ∃ r, firstRowFor rows o.order_number = some r ∧
      pyFloatField r.total = .ok o.total ∧
      ((r.total = none ∨ r.total = some "") → o.total = 0) ∧
      ∀ it ∈ o.items, ∃ r' ∈ itemRowsFor rows o.order_number,
        itemOfRow r' = .ok it ∧
        ((r'.lineitemQuantity = none ∨ r'.lineitemQuantity = some "") →
          it.cantidad = 1) ∧
        ((r'.lineitemPrice = none ∨ r'.lineitemPrice = some "") →
          it.precio = 0)) := by
  intro o ho
  obtain ⟨r, hf, hs, hitems⟩ := parse_grouping_core rows orders h o ho
  obtain ⟨hft, -⟩ := mkOrderScalars_fields hs
  refine ⟨r, hf, hft, ?_, ?_⟩
  · rintro (hv | hv)
    · rw [hv] at hft
      injection hft with h'
      rw [← h']
    · rw [hv] at hft
      injection hft with h'
      rw [← h']
  · intro it hit
    obtain ⟨r', hr', hfr'⟩ := mapME_mem hitems it hit
    obtain ⟨hq, hp, -, -⟩ := itemOfRow_fields hfr'
    refine ⟨r', hr', hfr', ?_, ?_⟩
    · rintro (hv | hv)
      · rw [hv] at hq
        injection hq with h'
        rw [← h']
      · rw [hv] at hq
        injection hq with h'
        rw [← h']
    · rintro (hv | hv)
      · rw [hv] at hp
        injection hp with h'
        rw [← h']
      · rw [hv] at hp
        injection hp with h'
        rw [← h']

/-- Witness for the amended C3 on the file `[rowA, rowB]` (order `#2002`,
first-row total `"5990"`). -/
theorem c3_amended_witness :
    ∃ orders, parse_shopify_csv [rowA, rowB] = .ok orders ∧
      ∀ o ∈ orders, ∃ r, firstRowFor [rowA, rowB] o.order_number = some r ∧
        pyFloatField r.total = .ok o.total ∧
        ((r.total = none ∨ r.total = some "") → o.total = 0) ∧
        ∀ it ∈ o.items, ∃ r' ∈ itemRowsFor [rowA, rowB] o.order_number,
          itemOfRow r' = .ok it ∧
          ((r'.lineitemQuantity = none ∨ r'.lineitemQuantity = some "") →
            it.cantidad = 1) ∧
          ((r'.lineitemPrice = none ∨ r'.lineitemPrice = some "") →
            it.precio = 0) := by
  have hok : (parse_shopify_csv [rowA, rowB]).isOk = true := rfl
  cases hp : parse_shopify_csv [rowA, rowB] with
  | error e => rw [hp] at hok; cases hok
  | ok orders => exact ⟨orders, rfl, c3_amended [rowA, rowB] orders hp⟩

/-! ## Claim C9 -/

theorem mkOrderScalars_ok_of_total {r : Row} {t : ℚ}
    (hft : pyFloatField r.total = .ok t) :
    ∃ o₀, mkOrderScalars r = .ok o₀ := by
  unfold mkOrderScalars
  rw [hft]
  exact ⟨_, rfl⟩

theorem itemOfRow_ok_of_fields {r : Row} {q : Int} {p : ℚ}
    (hq : pyIntField r.lineitemQuantity = .ok q)
    (hp : pyFloatField r.lineitemPrice = .ok p) :
    ∃ it, itemOfRow r = .ok it := by
  unfold itemOfRow
  rw [hq, hp]
  exact ⟨_, rfl⟩

theorem processRow_ok_of_numericOk {r : Row} (hok : numericOk r)
    (acc : List (String × Order)) : ∃ acc', processRow acc r = .ok acc' := by
  obtain ⟨ht, hitem⟩ := hok
  by_cases hn : fld r.name = ""
  · exact ⟨acc, processRow_empty hn acc⟩
  · have hsc : ∃ o₀, mkOrderScalars r = .ok o₀ := by
      cases hft : pyFloatField r.total with
      | error e => cases e; exact absurd hft ht
      | ok t => exact mkOrderScalars_ok_of_total hft
    by_cases hi : fld r.lineitemName = ""
    · by_cases hlk : (List.lookup (fld r.name) acc).isSome = true
      · exact ⟨acc, processRow_known_noitem hn hlk hi⟩
      · have hlk' : (List.lookup (fld r.name) acc).isSome = false := by
          cases h : (List.lookup (fld r.name) acc).isSome with
          | true => exact absurd h hlk
          | false => rfl
        obtain ⟨o₀, hs⟩ := hsc
        exact ⟨_, processRow_new_noitem hn hlk' hs hi⟩
    · obtain ⟨hq', hp'⟩ := hitem hi
      have hitok : ∃ it, itemOfRow r = .ok it := by
        cases hq : pyIntField r.lineitemQuantity with
        | error e => cases e; exact absurd hq hq'
        | ok q =>
          cases hp : pyFloatField r.lineitemPrice with
          | error e => cases e; exact absurd hp hp'
          | ok p => exact itemOfRow_ok_of_fields hq hp
      obtain ⟨it, hit⟩ := hitok
      by_cases hlk : (List.lookup (fld r.name) acc).isSome = true
      · exact ⟨_, processRow_known_item hn hlk hi hit⟩
      · have hlk' : (List.lookup (fld r.name) acc).isSome = false := by
          cases h : (List.lookup (fld r.name) acc).isSome with
          | true => exact absurd h hlk
          | false => rfl
        obtain ⟨o₀, hs⟩ := hsc
        exact ⟨_, processRow_new_item hn hlk' hs hi hit⟩

theorem parseRows_ok_of_numericOk {rows : List Row}
    (h : ∀ r ∈ rows, numericOk r) :
    ∀ acc, ∃ res, parseRows rows acc = .ok res := by
  induction rows with
  | nil => exact fun acc => ⟨acc, rfl⟩
  | cons r rows ih =>
    intro acc
    obtain ⟨acc', hp⟩ :=
      processRow_ok_of_numericOk (h r (List.mem_cons_self r rows)) acc
    obtain ⟨res, hres⟩ := ih (fun x hx => h x (List.mem_cons_of_mem r hx)) acc'
    refine ⟨res, ?_⟩
    unfold parseRows
    rw [hp]
    exact hres

/-- Claim C9: the creation-timestamp conversion never raises — whatever the
`Created at` fields contain, ingestion of a file with convertible numeric
fields succeeds, each order's timestamp is the total function
`parseCreatedAt` applied to its first row, and a missing or unparseable
value simply leaves the timestamp unset (`none`). -/
theorem c9_created_at_total (rows : List Row)
    (h : ∀ r ∈ rows, numericOk r) :
    (∃ orders, parse_shopify_csv rows = .ok orders ∧
      ∀ o ∈ orders, ∃ r, firstRowFor rows o.order_number = some r ∧
        o.created_at = parseCreatedAt r.createdAt) ∧
    (∀ s : String,
      pyStrptime (pySplitFirst (pySplitFirst s " -") " +") = none →
        parseCreatedAt (some s) = none) ∧
    parseCreatedAt none = none := by
  refine ⟨?_, ?_, rfl⟩
  · obtain ⟨res, hres⟩ := parseRows_ok_of_numericOk h []
    have hp : parse_shopify_csv rows = .ok (res.map Prod.snd) := by
      unfold parse_shopify_csv
      rw [hres]
    refine ⟨res.map Prod.snd, hp, ?_⟩
    intro o ho
    obtain ⟨r, hf, hs, -⟩ := parse_grouping_core rows (res.map Prod.snd) hp o ho
    obtain ⟨-, hc, -⟩ := mkOrderScalars_fields hs
    exact ⟨r, hf, hc⟩
  · intro s hns
    show (if s = "" then none
      else pyStrptime (pySplitFirst (pySplitFirst s " -") " +")) = none
    by_cases he : s = ""
    · rw [if_pos he]
    · rw [if_neg he, hns]

/-- Witness for C9: the file `[rowGarbageDate]` (creation timestamp
`"yesterday at noon"`) parses fine, with the timestamp left unset. -/
theorem c9_created_at_total_witness :
    (∀ r ∈ [rowGarbageDate], numericOk r) ∧
    parseCreatedAt rowGarbageDate.createdAt = none ∧
    (∃ orders, parse_shopify_csv [rowGarbageDate] = .ok orders ∧
      ∀ o ∈ orders, ∃ r, firstRowFor [rowGarbageDate] o.order_number = some r ∧
        o.created_at = parseCreatedAt r.createdAt) := by
  have hnum : ∀ r ∈ [rowGarbageDate], numericOk r := by
    intro r hr
    rw [List.mem_singleton] at hr
    subst hr
    exact ⟨fun h => Except.noConfusion h,
      fun _ => ⟨fun h => Except.noConfusion h, fun h => Except.noConfusion h⟩⟩
  exact ⟨hnum, rfl, (c9_created_at_total [rowGarbageDate] hnum).1⟩

/-! ## Claim C5: the shopping-list sums -/

theorem sum_map_const {α : Type} (l : List α) (c : Int) :
    (l.map (fun _ => c)).sum = l.length * c := by
  induction l with
  | nil => simp
  | cons a l ih => simp [ih]; ring

theorem length_filter_nodup_id (i : Nat) (q : Pedido → Bool) :
    ∀ ps : List Pedido, (ps.map Pedido.id).Nodup →
    (ps.filter (fun p => decide (p.id = i) && q p)).length =
      (if ps.any (fun p => decide (p.id = i) && q p) = true then 1 else 0) := by
  intro ps
  induction ps with
  | nil => simp
  | cons p ps ih =>
    intro hnd
    rw [List.map_cons, List.nodup_cons] at hnd
    by_cases hp : (decide (p.id = i) && q p) = true
    · have hpid : p.id = i := by
        have := (Bool.and_eq_true _ _).mp hp
        exact of_decide_eq_true this.1
      have hrest : ps.filter (fun x => decide (x.id = i) && q x) = [] := by
        rw [List.filter_eq_nil_iff]
        intro x hx hc
        have hxid : x.id = i := by
          have := (Bool.and_eq_true _ _).mp hc
          exact of_decide_eq_true this.1
        exact hnd.1 (List.mem_map.mpr ⟨x, hx, hxid.trans hpid.symm⟩)
      simp [List.filter_cons, hp, hrest, List.any_cons]
    · have hp' : (decide (p.id = i) && q p) = false := by
        cases h : (decide (p.id = i) && q p) with
        | true => exact absurd h hp
        | false => rfl
      simp [List.filter_cons, hp', List.any_cons, ih hnd.2]

theorem join_sum (st : Store) (d prod : String)
    (hids : (st.pedidos.map Pedido.id).Nodup) :
    (((joinRows st d).filter (fun lp => lp.1.producto = prod)).map
      (fun lp => lp.1.cantidad)).sum =
    ((st.lineas.filter (fun l =>
      l.producto = prod ∧ pendingParentB st l d = true)).map Linea.cantidad).sum := by
  unfold joinRows
  induction st.lineas with
  | nil => simp
  | cons l L ih =>
    rw [List.flatMap_cons, List.filter_append, List.map_append, List.sum_append,
      ih, List.filter_cons]
    rw [List.filter_map]
    by_cases hpr : l.producto = prod
    · have hconst : ((st.pedidos.filter (fun p => p.id = l.pedido_id ∧
          p.fecha_entrega = d ∧ p.status = "pendiente")).filter
          ((fun lp : Linea × Pedido => decide (lp.1.producto = prod)) ∘
            (fun p => (l, p)))) =
          (st.pedidos.filter (fun p => p.id = l.pedido_id ∧
            p.fecha_entrega = d ∧ p.status = "pendiente")) := by
        apply List.filter_eq_self.mpr
        intro p _
        simpa using hpr
      rw [hconst, List.map_map]
      have hmapc : ((st.pedidos.filter (fun p => p.id = l.pedido_id ∧
          p.fecha_entrega = d ∧ p.status = "pendiente")).map
          ((fun lp : Linea × Pedido => lp.1.cantidad) ∘ (fun p => (l, p)))) =
          ((st.pedidos.filter (fun p => p.id = l.pedido_id ∧
            p.fecha_entrega = d ∧ p.status = "pendiente")).map
            (fun _ => l.cantidad)) := rfl
      rw [hmapc, sum_map_const]
      have hlen := length_filter_nodup_id l.pedido_id
        (fun p => decide (p.fecha_entrega = d) && decide (p.status = "pendiente"))
        st.pedidos hids
      have hpredeq : (fun p : Pedido => decide (p.id = l.pedido_id ∧
          p.fecha_entrega = d ∧ p.status = "pendiente")) =
          (fun p : Pedido => decide (p.id = l.pedido_id) &&
            (decide (p.fecha_entrega = d) && decide (p.status = "pendiente"))) := by
        funext p
        simp [Bool.decide_and]
      rw [hpredeq, hlen]
      have hpend : pendingParentB st l d =
          st.pedidos.any (fun p => decide (p.id = l.pedido_id) &&
            (decide (p.fecha_entrega = d) && decide (p.status = "pendiente"))) := by
        unfold pendingParentB
        rw [show (fun p : Pedido => decide (p.id = l.pedido_id ∧
          p.fecha_entrega = d ∧ p.status = "pendiente")) =
          (fun p : Pedido => decide (p.id = l.pedido_id) &&
            (decide (p.fecha_entrega = d) && decide (p.status = "pendiente"))) from by
              funext p
              simp [Bool.decide_and]]
      by_cases hany : st.pedidos.any (fun p => decide (p.id = l.pedido_id) &&
          (decide (p.fecha_entrega = d) && decide (p.status = "pendiente"))) = true
      · rw [if_pos hany, if_pos (by simp [hpr, hpend, hany])]
        simp
      · rw [if_neg hany, if_neg (by
          simp only [hpend]
          simp [hany])]
        simp
    · have hconst : ((st.pedidos.filter (fun p => p.id = l.pedido_id ∧
          p.fecha_entrega = d ∧ p.status = "pendiente")).filter
          ((fun lp : Linea × Pedido => decide (lp.1.producto = prod)) ∘
            (fun p => (l, p)))) = [] := by
        rw [List.filter_eq_nil_iff]
        intro p _
        simpa using hpr
      rw [hconst, if_neg (by simp [hpr])]
      simp

theorem addCat_elems {Q : String → String × Int → Prop}
    {acc : List (String × List (String × Int))} {cat : String} {v : String × Int}
    (hacc : ∀ e ∈ acc, ∀ x ∈ e.2, Q e.1 x) (hv : Q cat v) :
    ∀ e ∈ addCat acc cat v, ∀ x ∈ e.2, Q e.1 x := by
  intro e he x hx
  unfold addCat at he
  by_cases hlk : (List.lookup cat acc).isSome = true
  · rw [if_pos hlk] at he
    obtain ⟨p, hp, heq⟩ := List.mem_map.mp he
    by_cases hpc : p.1 = cat
    · rw [if_pos (by simpa using hpc)] at heq
      subst heq
      rcases List.mem_append.mp hx with hx' | hx'
      · exact hacc p hp x hx'
      · rw [List.mem_singleton] at hx'
        subst hx'
        simpa [hpc] using hv
    · rw [if_neg (by simpa using hpc)] at heq
      subst heq
      exact hacc p hp x hx
  · rw [if_neg hlk] at he
    rcases List.mem_append.mp he with he' | he'
    · exact hacc e he' x hx
    · rw [List.mem_singleton] at he'
      subst he'
      rw [List.mem_singleton] at hx
      subst hx
      exact hv

theorem regroup_elems (Q : String → String × Int → Prop) :
    ∀ (rows : List ListaRow) (acc : List (String × List (String × Int))),
    (∀ e ∈ acc, ∀ x ∈ e.2, Q e.1 x) →
    (∀ r ∈ rows, Q r.categoria (r.producto, r.cantidad_total)) →
    ∀ e ∈ rows.foldl (fun acc it =>
        addCat acc it.categoria (it.producto, it.cantidad_total)) acc,
      ∀ x ∈ e.2, Q e.1 x := by
  intro rows
  induction rows with
  | nil => intro acc hacc _ e he x hx; exact hacc e he x hx
  | cons r rows ih =>
    intro acc hacc hrows e he x hx
    rw [List.foldl_cons] at he
    exact ih (addCat acc r.categoria (r.producto, r.cantidad_total))
      (addCat_elems hacc (hrows r (List.mem_cons_self r rows)))
      (fun r' hr' => hrows r' (List.mem_cons_of_mem r hr')) e he x hx

theorem mem_listaRows {st : Store} {d : String} {row : ListaRow}
    (h : row ∈ listaRows st d) :
    row.cantidad_total =
      (((joinRows st d).filter (fun lp => lp.1.producto = row.producto)).map
        (fun lp => lp.1.cantidad)).sum := by
  unfold listaRows at h
  rw [List.mem_insertionSort] at h
  obtain ⟨p, -, hrow⟩ := List.mem_map.mp h
  subst hrow
  rfl

theorem lista_sum_core (st : Store) (d : String)
    (hids : (st.pedidos.map Pedido.id).Nodup) :
    ∀ cat prods, (cat, prods) ∈ get_lista_compras st d →
    ∀ prod qty, (prod, qty) ∈ prods →
    qty = ((st.lineas.filter (fun l =>
      l.producto = prod ∧ pendingParentB st l d = true)).map Linea.cantidad).sum := by
  intro cat prods hcp prod qty hpq
  have key := regroup_elems
    (fun _ x => x.2 = ((st.lineas.filter (fun l =>
      l.producto = x.1 ∧ pendingParentB st l d = true)).map Linea.cantidad).sum)
    (listaRows st d) [] (by intro e he; cases he) ?_ (cat, prods) hcp (prod, qty) hpq
  · exact key
  · intro r hr
    have h1 := mem_listaRows hr
    have h2 := join_sum st d r.producto hids
    exact h1.trans h2

/-- Claim C5: every `total_quantity` reported by `shoppingList(d)` equals
the sum of the quantities of that product's line items whose parent order
is pending with delivery date `d`. -/
theorem c5_shopping_list_sum (st : Store) (d : String)
    (hids : (st.pedidos.map Pedido.id).Nodup) :
    ∀ cat prods, (cat, prods) ∈ get_lista_compras st d →
    ∀ prod qty, (prod, qty) ∈ prods →
    qty = ((st.lineas.filter (fun l =>
      l.producto = prod ∧ pendingParentB st l d = true)).map Linea.cantidad).sum :=
  lista_sum_core st d hids

/-- Witness for C5 on the concrete store `stW` for date 2024-05-10
(only the pending order 1 contributes: Manzana 3, Pan 1). -/
theorem c5_shopping_list_sum_witness :
    (stW.pedidos.map Pedido.id).Nodup ∧
    get_lista_compras stW "2024-05-10" =
      [("Frutas", [("Manzana", 3)]), ("Sin Categoría", [("Pan", 1)])] ∧
    ∀ cat prods, (cat, prods) ∈ get_lista_compras stW "2024-05-10" →
    ∀ prod qty, (prod, qty) ∈ prods →
    qty = ((stW.lineas.filter (fun l =>
      l.producto = prod ∧ pendingParentB stW l "2024-05-10" = true)).map
        Linea.cantidad).sum := by
  exact ⟨by decide, by rfl,
    c5_shopping_list_sum stW "2024-05-10" (by decide)⟩

/-! ## Claim C8 -/

/-- Claim C8: after `eliminar_pedido`, no line item of the deleted order
remains, the order row itself is gone, the picking manifest for its former
delivery date no longer lists it, and every shopping-list quantity (for any
date) is a sum over line items that all belong to other orders. -/
theorem c8_delete_cascade (st : Store) (pid : Nat) (p : Pedido)
    (hp : p ∈ st.pedidos) (hid : p.id = pid)
    (hids : (st.pedidos.map Pedido.id).Nodup) :
    (∀ l ∈ (eliminar_pedido st pid).lineas, ¬ l.pedido_id = pid) ∧
    (∀ q ∈ (eliminar_pedido st pid).pedidos, ¬ q.id = pid) ∧
    (∀ e ∈ get_pedidos (eliminar_pedido st pid) (some p.fecha_entrega)
        (some "pendiente"), ¬ e.1.id = pid) ∧
    (∀ d cat prods, (cat, prods) ∈ get_lista_compras (eliminar_pedido st pid) d →
      ∀ prod qty, (prod, qty) ∈ prods →
      qty = ((st.lineas.filter (fun l => ¬ l.pedido_id = pid ∧
        l.producto = prod ∧
        pendingParentB (eliminar_pedido st pid) l d = true)).map
          Linea.cantidad).sum) := by
  have hlin : ∀ l ∈ (eliminar_pedido st pid).lineas, ¬ l.pedido_id = pid := by
    intro l hl
    have := (List.mem_filter.mp hl).2
    simpa using this
  have hped : ∀ q ∈ (eliminar_pedido st pid).pedidos, ¬ q.id = pid := by
    intro q hq
    have := (List.mem_filter.mp hq).2
    simpa using this
  refine ⟨hlin, hped, ?_, ?_⟩
  · intro e he
    unfold get_pedidos at he
    obtain ⟨q, hq, heq⟩ := List.mem_map.mp he
    rw [List.mem_insertionSort] at hq
    have hq2 : q ∈ (eliminar_pedido st pid).pedidos := (List.mem_filter.mp hq).1
    rw [← heq]
    exact hped q hq2
  · intro d cat prods hcp prod qty hpq
    have hids' : ((eliminar_pedido st pid).pedidos.map Pedido.id).Nodup :=
      ((List.filter_sublist st.pedidos).map Pedido.id).nodup hids
    have h5 := lista_sum_core (eliminar_pedido st pid) d hids'
      cat prods hcp prod qty hpq
    rw [h5]
    show ((((st.lineas.filter (fun l => !(l.pedido_id = pid))).filter (fun l =>
      l.producto = prod ∧
        pendingParentB (eliminar_pedido st pid) l d = true))).map
          Linea.cantidad).sum = _
    rw [List.filter_filter]
    congr 1
    congr 1
    apply List.filter_congr
    intro l _
    by_cases h1 : l.pedido_id = pid <;>
      by_cases h2 : l.producto = prod <;>
        by_cases h3 : pendingParentB (eliminar_pedido st pid) l d = true <;>
          simp [h1, h2, h3]

/-- Witness for C8: deleting order 1 of `stW` empties the 2024-05-10
shopping list and manifest-level conclusions hold concretely. -/
theorem c8_delete_cascade_witness :
    (pedFix 1 "#1" "2024-05-10" "pendiente" ∈ stW.pedidos ∧
      (pedFix 1 "#1" "2024-05-10" "pendiente").id = 1 ∧
      (stW.pedidos.map Pedido.id).Nodup) ∧
    (∀ l ∈ (eliminar_pedido stW 1).lineas, ¬ l.pedido_id = 1) ∧
    get_lista_compras (eliminar_pedido stW 1) "2024-05-10" = [] := by
  refine ⟨⟨by decide, rfl, by decide⟩, ?_, by rfl⟩
  exact (c8_delete_cascade stW 1 (pedFix 1 "#1" "2024-05-10" "pendiente")
    (by decide) rfl (by decide)).1

/-! ## Claim C4 -/

theorem parse_numbers_nodup {rows : List Row} {orders : List Order}
    (h : parse_shopify_csv rows = .ok orders) :
    (orders.map Order.order_number).Nodup := by
  obtain ⟨acc, -, horders, hnd, -, hent⟩ := parse_shopify_spec h
  subst horders
  rw [List.map_map]
  have heq : (acc.map (Order.order_number ∘ Prod.snd)) = acc.map Prod.fst := by
    apply List.map_congr_left
    intro p hp
    rcases p with ⟨k, o⟩
    exact (hent k o hp).1
  rw [heq]
  exact hnd

theorem ingest_fresh_preserved {os : List Order} {n : String}
    (hfr : ∀ o ∈ os, ¬ o.order_number = n) :
    ∀ st, ¬ numbersB st n = true → ¬ numbersB (ingestStore st os) n = true := by
  induction os with
  | nil => intro st h; simpa [ingestStore] using h
  | cons o os ih =>
    intro st h
    have hfr' : ∀ x ∈ os, ¬ x.order_number = n :=
      fun x hx => hfr x (List.mem_cons_of_mem o hx)
    unfold ingestStore
    by_cases h1 : numbersB st o.order_number = true
    · simpa [h1] using ih hfr' st h
    · by_cases h2 : pyFalsyStr o.fecha_entrega = true
      · simpa [h1, h2] using ih hfr' st h
      · simp only [h1, h2, Bool.false_eq_true, if_false]
        refine ih hfr' _ ?_
        rw [numbersB_insertOrder]
        simp [h, hfr o (List.mem_cons_self o os)]

theorem ingestStore_cons (st : Store) (o : Order) (os : List Order) :
    ingestStore st (o :: os) =
      if numbersB st o.order_number = true then ingestStore st os
      else if pyFalsyStr o.fecha_entrega = true then ingestStore st os
      else ingestStore (insertOrder st o (fld o.fecha_entrega)) os := rfl

theorem runCounts_cons (st : Store) (o : Order) (os : List Order) :
    runCounts st (o :: os) =
      if numbersB st o.order_number = true then
        { runCounts st os with duplicados := (runCounts st os).duplicados + 1 }
      else if pyFalsyStr o.fecha_entrega = true then
        { runCounts st os with sin_fecha := (runCounts st os).sin_fecha + 1 }
      else
        { runCounts (insertOrder st o (fld o.fecha_entrega)) os with
          nuevos := (runCounts (insertOrder st o (fld o.fecha_entrega)) os).nuevos + 1 } := rfl

theorem ingest_erase_falsy {c : Order}
    (hfal : pyFalsyStr c.fecha_entrega = true) :
    ∀ os : List Order, c ∈ os → (os.map Order.order_number).Nodup →
    ∀ st : Store, ¬ numbersB st c.order_number = true →
      ingestStore st os = ingestStore st (os.erase c) ∧
      (runCounts st os).sin_fecha = (runCounts st (os.erase c)).sin_fecha + 1 ∧
      (runCounts st os).duplicados = (runCounts st (os.erase c)).duplicados ∧
      (runCounts st os).nuevos = (runCounts st (os.erase c)).nuevos := by
  intro os
  induction os with
  | nil => intro hc; cases hc
  | cons o os ih =>
    intro hc hnd st hfresh
    rw [List.map_cons, List.nodup_cons] at hnd
    by_cases heq : o = c
    · subst heq
      rw [List.erase_cons_head]
      have hnum : numbersB st o.order_number = false := by
        cases h : numbersB st o.order_number with
        | true => exact absurd h hfresh
        | false => rfl
      rw [ingestStore_cons, runCounts_cons]
      simp [hnum, hfal]
    · have hc' : c ∈ os := by
        rcases List.mem_cons.mp hc with h | h
        · exact absurd h.symm heq
        · exact h
      have hne : ¬ o.order_number = c.order_number := by
        intro h
        exact hnd.1 (h ▸ List.mem_map.mpr ⟨c, hc', rfl⟩)
      rw [List.erase_cons_tail (by simpa using fun h => heq h)]
      simp only [ingestStore_cons, runCounts_cons]
      by_cases h1 : numbersB st o.order_number = true
      · simp only [h1, if_true]
        obtain ⟨e1, e2, e3, e4⟩ := ih hc' hnd.2 st hfresh
        exact ⟨e1, by simp [e2], by simp [e3], by simp [e4]⟩
      · by_cases h2 : pyFalsyStr o.fecha_entrega = true
        · simp only [h1, Bool.false_eq_true, if_false, h2, if_true]
          obtain ⟨e1, e2, e3, e4⟩ := ih hc' hnd.2 st hfresh
          exact ⟨e1, by simp [e2], by simp [e3], by simp [e4]⟩
        · simp only [h1, h2, Bool.false_eq_true, if_false]
          have hfresh' : ¬ numbersB (insertOrder st o (fld o.fecha_entrega))
              c.order_number = true := by
            rw [numbersB_insertOrder]
            simp [hfresh, hne]
          obtain ⟨e1, e2, e3, e4⟩ := ih hc' hnd.2 _ hfresh'
          exact ⟨e1, by simp [e2], by simp [e3], by simp [e4]⟩

/-- Claim C4: a parsed candidate order without a delivery date and whose
number is not already stored is counted `sin_fecha` (the whole-file count is
exactly one more than without it) and is never persisted: ingestion yields
the very same store as ingesting the file without that candidate, its
number is absent from the store, it appears in no picking manifest
(`get_pedidos`) for any date, and every shopping list coincides with the
one computed from the store that never saw the order. -/
theorem c4_no_date_never_persisted (rows : List Row) (orders : List Order)
    (st : Store) (hparse : parse_shopify_csv rows = .ok orders)
    (c : Order) (hc : c ∈ orders) (hdate : c.fecha_entrega = none)
    (hfresh : ¬ numbersB st c.order_number = true) :
    (upload_csv st orders).2.sin_fecha =
      (upload_csv st (orders.erase c)).2.sin_fecha + 1 ∧
    (upload_csv st orders).2.duplicados =
      (upload_csv st (orders.erase c)).2.duplicados ∧
    (upload_csv st orders).2.nuevos =
      (upload_csv st (orders.erase c)).2.nuevos ∧
    (upload_csv st orders).1 = (upload_csv st (orders.erase c)).1 ∧
    ¬ numbersB (upload_csv st orders).1 c.order_number = true ∧
    (∀ d : String, ∀ e ∈ get_pedidos (upload_csv st orders).1 (some d)
        (some "pendiente"), ¬ e.1.order_number = c.order_number) ∧
    (∀ d : String, get_lista_compras (upload_csv st orders).1 d =
      get_lista_compras (upload_csv st (orders.erase c)).1 d) := by
  have hnd := parse_numbers_nodup hparse
  have hfal : pyFalsyStr c.fecha_entrega = true := by rw [hdate]; rfl
  obtain ⟨e1, e2, e3, e4⟩ := ingest_erase_falsy hfal orders hc hnd st hfresh
  have hfr : ∀ o ∈ orders.erase c, ¬ o.order_number = c.order_number := by
    intro o ho hnum
    have hoin : o ∈ orders := List.mem_of_mem_erase ho
    have : o = c := List.inj_on_of_nodup_map hnd hoin hc hnum
    subst this
    exact (List.Nodup.not_mem_erase (hnd.of_map Order.order_number)) ho
  have hnotst' : ¬ numbersB (upload_csv st orders).1 c.order_number = true := by
    rw [upload_csv_spec]
    show ¬ numbersB (ingestStore st orders) c.order_number = true
    rw [e1]
    exact ingest_fresh_preserved hfr st hfresh
  refine ⟨?_, ?_, ?_, ?_, hnotst', ?_, ?_⟩
  · rw [upload_csv_spec, upload_csv_spec]
    exact e2
  · rw [upload_csv_spec, upload_csv_spec]
    exact e3
  · rw [upload_csv_spec, upload_csv_spec]
    exact e4
  · rw [upload_csv_spec, upload_csv_spec]
    exact e1
  · intro d e he
    unfold get_pedidos at he
    obtain ⟨q, hq, heq⟩ := List.mem_map.mp he
    rw [List.mem_insertionSort] at hq
    have hq2 : q ∈ (upload_csv st orders).1.pedidos := (List.mem_filter.mp hq).1
    intro hnumeq
    apply hnotst'
    apply List.any_eq_true.mpr
    refine ⟨q, hq2, ?_⟩
    rw [← heq] at hnumeq
    simpa using hnumeq
  · intro d
    rw [upload_csv_spec, upload_csv_spec]
    show get_lista_compras (ingestStore st orders) d = _
    rw [e1]

/-- Witness for C4: the no-date order of `c1File` ingested into the empty
store is counted once under `sin_fecha` and its number is never stored. -/
theorem c4_no_date_never_persisted_witness :
    parse_shopify_csv c1File = .ok [c4Order] ∧
    c4Order.fecha_entrega = none ∧
    ¬ numbersB Store.empty c4Order.order_number = true ∧
    (upload_csv Store.empty [c4Order]).2.sin_fecha =
      (upload_csv Store.empty ([c4Order].erase c4Order)).2.sin_fecha + 1 ∧
    ¬ numbersB (upload_csv Store.empty [c4Order]).1 c4Order.order_number = true := by
  have hp : parse_shopify_csv c1File = .ok [c4Order] := rfl
  obtain ⟨h1, -, -, -, h5, -, -⟩ := c4_no_date_never_persisted c1File [c4Order]
    Store.empty hp c4Order (List.mem_singleton_self _) rfl (by decide)
  exact ⟨hp, rfl, by decide, h1, h5⟩

/-! ## Claim C6: category and product ordering -/

theorem optStrLt_irrefl (a : Option String) : ¬ optStrLt a a := by
  cases a with
  | none => simp [optStrLt]
  | some s => simp only [optStrLt]; exact lt_irrefl s

theorem keyLt_irrefl (a : Int × Option String) : ¬ keyLt a a := by
  rintro (h | ⟨-, h⟩)
  · exact lt_irrefl _ h
  · exact optStrLt_irrefl _ h

theorem keyLt_trans {a b c : Int × Option String} :
    keyLt a b → keyLt b c → keyLt a c := by
  rintro (h1 | ⟨e1, l1⟩) (h2 | ⟨e2, l2⟩)
  · exact Or.inl (h1.trans h2)
  · exact Or.inl (e2 ▸ h1)
  · exact Or.inl (e1 ▸ h2)
  · exact Or.inr ⟨e1.trans e2, optStrLt_trans l1 l2⟩

theorem keyLt_asymm {a b : Int × Option String} :
    keyLt a b → ¬ keyLt b a :=
  fun h1 h2 => keyLt_irrefl a (keyLt_trans h1 h2)

theorem keyLt_of_ne {a b : Int × Option String}
    (h : keyLt a b ∨ a = b) (hne : ¬ a = b) : keyLt a b := by
  rcases h with h | h
  · exact h
  · exact absurd h hne

theorem find?_nodup_self {l : List Categoria}
    (h : (l.map Categoria.nombre).Nodup) {c : Categoria} (hc : c ∈ l) :
    l.find? (fun x => x.nombre = c.nombre) = some c := by
  cases hfind : l.find? (fun x => x.nombre = c.nombre) with
  | none =>
    exact absurd (List.find?_eq_none.mp hfind c hc) (by simp)
  | some c' =>
    have hmem := List.mem_of_find?_eq_some hfind
    have hname : c'.nombre = c.nombre := by
      simpa using List.find?_some hfind
    rw [List.inj_on_of_nodup_map h hmem hc hname]

theorem listaRows_cat_eq (st : Store) (d : String) :
    ∀ row ∈ listaRows st d,
      row.categoria = row.nombre_cat.getD "Sin Categoría" := by
  intro row hrow
  unfold listaRows at hrow
  rw [List.mem_insertionSort] at hrow
  obtain ⟨p, -, hp⟩ := List.mem_map.mp hrow
  subst hp
  unfold filaDe
  cases catRowOf st p <;> rfl

theorem catKey_agrees (st : Store) (d : String)
    (hsin : ∀ c ∈ st.categorias, ¬ c.nombre = "Sin Categoría")
    (hnames : (st.categorias.map Categoria.nombre).Nodup) :
    ∀ row ∈ listaRows st d, catKey st row.categoria = rowKey row := by
  intro row hrow
  unfold listaRows at hrow
  rw [List.mem_insertionSort] at hrow
  obtain ⟨p, -, hp⟩ := List.mem_map.mp hrow
  subst hp
  unfold filaDe rowKey catKey
  cases hcat : catRowOf st p with
  | none => simp
  | some ctg =>
    have hmem : ctg ∈ st.categorias := by
      unfold catRowOf at hcat
      cases hpc : st.producto_categoria.find? (fun pc => pc.producto = p) with
      | none => rw [hpc] at hcat; cases hcat
      | some pc =>
        rw [hpc] at hcat
        exact List.mem_of_find?_eq_some hcat
    have hne : ¬ ctg.nombre = "Sin Categoría" := hsin ctg hmem
    rw [show (Option.map Categoria.nombre (some ctg)).getD "Sin Categoría" =
      ctg.nombre from rfl]
    rw [if_neg hne, find?_nodup_self hnames hmem]
    rfl

theorem catKey_bound (st : Store) (d : String)
    (hord : ∀ c ∈ st.categorias, c.orden < 999)
    (hsin : ∀ c ∈ st.categorias, ¬ c.nombre = "Sin Categoría")
    (hnames : (st.categorias.map Categoria.nombre).Nodup) :
    ∀ row ∈ listaRows st d, catKey st row.categoria = (999, none) ∨
      (catKey st row.categoria).1 < 999 := by
  intro row hrow
  have hagree := catKey_agrees st d hsin hnames row hrow
  unfold listaRows at hrow
  rw [List.mem_insertionSort] at hrow
  obtain ⟨p, -, hp⟩ := List.mem_map.mp hrow
  subst hp
  rw [hagree]
  unfold rowKey filaDe
  cases hcat : catRowOf st p with
  | none => exact Or.inl (by simp)
  | some ctg =>
    have hmem : ctg ∈ st.categorias := by
      unfold catRowOf at hcat
      cases hpc : st.producto_categoria.find? (fun pc => pc.producto = p) with
      | none => rw [hpc] at hcat; cases hcat
      | some pc =>
        rw [hpc] at hcat
        exact List.mem_of_find?_eq_some hcat
    exact Or.inr (by simpa using hord ctg hmem)

theorem listaRows_nodup_producto (st : Store) (d : String) :
    ((listaRows st d).map ListaRow.producto).Nodup := by
  unfold listaRows
  have hperm := List.perm_insertionSort listaLe
    ((((joinRows st d).map (fun lp => lp.1.producto)).dedup).map
      (filaDe st (joinRows st d)))
  refine ((hperm.map ListaRow.producto).symm.nodup ?_)
  rw [List.map_map]
  have hid : (ListaRow.producto ∘ filaDe st (joinRows st d)) = id := by
    funext p
    rfl
  rw [hid, List.map_id]
  exact List.nodup_dedup _

theorem listaRows_pairwise_rowStrict (st : Store) (d : String) :
    (listaRows st d).Pairwise rowStrict := by
  have hsorted : (listaRows st d).Sorted listaLe := by
    unfold listaRows
    exact List.sorted_insertionSort listaLe _
  have hne : (listaRows st d).Pairwise (fun a b => ¬ a.producto = b.producto) :=
    List.pairwise_map.mp (listaRows_nodup_producto st d)
  refine (hsorted.and hne).imp ?_
  rintro a b ⟨hle, hnep⟩
  rcases hle with h1 | ⟨h2, h3 | ⟨h4, h5⟩⟩
  · exact Or.inl (Or.inl h1)
  · exact Or.inl (Or.inr ⟨h2, h3⟩)
  · refine Or.inr ⟨?_, lt_of_le_of_ne h5 hnep⟩
    unfold rowKey
    rw [h2, h4]

theorem addCat_new {acc : List (String × List (String × Int))}
    {cat : String} (v : String × Int)
    (h : ∀ e ∈ acc, ¬ e.1 = cat) :
    addCat acc cat v = acc ++ [(cat, [v])] := by
  unfold addCat
  rw [if_neg]
  intro hs
  rw [lookup_isSome_iff_mem_keys] at hs
  obtain ⟨e, he, hfst⟩ := List.mem_map.mp hs
  exact h e he hfst

theorem addCat_update_last {acc₀ : List (String × List (String × Int))}
    {cat : String} {ps : List (String × Int)} (v : String × Int)
    (h : ∀ e ∈ acc₀, ¬ e.1 = cat) :
    addCat (acc₀ ++ [(cat, ps)]) cat v = acc₀ ++ [(cat, ps ++ [v])] := by
  unfold addCat
  rw [if_pos]
  · rw [List.map_append]
    congr 1
    · have : ∀ e ∈ acc₀, (fun p : String × List (String × Int) =>
          if p.1 = cat then (p.1, p.2 ++ [v]) else p) e = id e := by
        intro e he
        simp [h e he]
      rw [List.map_congr_left this, List.map_id]
    · simp
  · rw [lookup_isSome_iff_mem_keys, List.map_append]
    simp


theorem regroup_fold_sorted (kf : String → Int × Option String) :
    ∀ (rows : List ListaRow) (acc₀ : List (String × List (String × Int)))
      (cat : String) (ps : List (String × Int)),
    (∀ r ∈ rows, kf r.categoria = rowKey r) →
    (∀ r ∈ rows, r.categoria = r.nombre_cat.getD "Sin Categoría") →
    rows.Pairwise rowStrict →
    cat = (kf cat).2.getD "Sin Categoría" →
    acc₀.Pairwise (fun x y => keyLt (kf x.1) (kf y.1)) →
    (∀ e ∈ acc₀, e.2.Pairwise (fun a b => a.1 < b.1)) →
    (∀ e ∈ acc₀, keyLt (kf e.1) (kf cat)) →
    (∀ e ∈ acc₀, ∀ r ∈ rows, keyLt (kf e.1) (kf r.categoria)) →
    ps.Pairwise (fun a b => a.1 < b.1) →
    (∀ r ∈ rows, keyLt (kf cat) (kf r.categoria) ∨
      (kf cat = kf r.categoria ∧ ∀ x ∈ ps, x.1 < r.producto)) →
    (rows.foldl (fun acc it =>
        addCat acc it.categoria (it.producto, it.cantidad_total))
      (acc₀ ++ [(cat, ps)])).Pairwise (fun x y => keyLt (kf x.1) (kf y.1)) ∧
    (∀ e ∈ rows.foldl (fun acc it =>
        addCat acc it.categoria (it.producto, it.cantidad_total))
      (acc₀ ++ [(cat, ps)]), e.2.Pairwise (fun a b => a.1 < b.1)) := by
  intro rows
  induction rows with
  | nil =>
    intro acc₀ cat ps _ _ _ _ haccPW haccPr hacc₀cat _ hps _
    simp only [List.foldl_nil]
    constructor
    · rw [List.pairwise_append]
      refine ⟨haccPW, List.pairwise_singleton _ _, ?_⟩
      intro a ha b hb
      rw [List.mem_singleton] at hb
      subst hb
      exact hacc₀cat a ha
    · intro e he
      rcases List.mem_append.mp he with h | h
      · exact haccPr e h
      · rw [List.mem_singleton] at h
        subst h
        exact hps
  | cons r rest ih =>
    intro acc₀ cat ps hkf hcatval hrows hcatcur haccPW haccPr hacc₀cat
      hacc₀rows hps hcur
    rw [List.pairwise_cons] at hrows
    obtain ⟨hr, hrest⟩ := hrows
    have hkfr := hkf r (List.mem_cons_self r rest)
    have hcatvalr := hcatval r (List.mem_cons_self r rest)
    have hrcatkey : r.categoria = (kf r.categoria).2.getD "Sin Categoría" := by
      rw [hkfr]
      exact hcatvalr
    have hacc₀ne : ∀ e ∈ acc₀, ¬ e.1 = r.categoria := by
      intro e he hc
      exact keyLt_irrefl _ (hc ▸ hacc₀rows e he r (List.mem_cons_self r rest))
    rcases hcur r (List.mem_cons_self r rest) with hlt | ⟨hkeq, hx⟩
    · -- the row opens a new category
      have hcatne : ¬ cat = r.categoria := by
        intro hc
        exact keyLt_irrefl _ (hc ▸ hlt)
      rw [List.foldl_cons,
        addCat_new (r.producto, r.cantidad_total) (by
          intro e he
          rcases List.mem_append.mp he with h | h
          · exact hacc₀ne e h
          · rw [List.mem_singleton] at h
            subst h
            exact hcatne)]
      refine ih (acc₀ ++ [(cat, ps)]) r.categoria [(r.producto, r.cantidad_total)]
        (fun x hx' => hkf x (List.mem_cons_of_mem r hx'))
        (fun x hx' => hcatval x (List.mem_cons_of_mem r hx'))
        hrest hrcatkey ?_ ?_ ?_ ?_ (List.pairwise_singleton _ _) ?_
      · rw [List.pairwise_append]
        refine ⟨haccPW, List.pairwise_singleton _ _, ?_⟩
        intro a ha b hb
        rw [List.mem_singleton] at hb
        subst hb
        exact hacc₀cat a ha
      · intro e he
        rcases List.mem_append.mp he with h | h
        · exact haccPr e h
        · rw [List.mem_singleton] at h
          subst h
          exact hps
      · intro e he
        rcases List.mem_append.mp he with h | h
        · exact hacc₀rows e h r (List.mem_cons_self r rest)
        · rw [List.mem_singleton] at h
          subst h
          exact hlt
      · intro e he r' hr'
        rcases List.mem_append.mp he with h | h
        · exact hacc₀rows e h r' (List.mem_cons_of_mem r hr')
        · rw [List.mem_singleton] at h
          subst h
          rcases hcur r' (List.mem_cons_of_mem r hr') with h2 | ⟨h2, -⟩
          · exact h2
          · exfalso
            rcases hr r' hr' with h3 | ⟨h3, -⟩
            · refine keyLt_asymm hlt ?_
              rw [← hkfr, ← hkf r' (List.mem_cons_of_mem r hr'), ← h2] at h3
              exact h3
            · have hkk : kf cat = kf r.categoria :=
                h2.trans ((hkf r' (List.mem_cons_of_mem r hr')).trans
                  (h3.symm.trans hkfr.symm))
              rw [← hkk] at hlt
              exact keyLt_irrefl _ hlt
      · intro r' hr'
        rcases hr r' hr' with h3 | ⟨h3, h4⟩
        · rw [← hkfr, ← hkf r' (List.mem_cons_of_mem r hr')] at h3
          exact Or.inl h3
        · refine Or.inr ⟨?_, ?_⟩
          · rw [hkfr, hkf r' (List.mem_cons_of_mem r hr')]
            exact h3
          · intro x hx'
            rw [List.mem_singleton] at hx'
            subst hx'
            exact h4
    · -- the row extends the open category
      have hcateq : cat = r.categoria := by
        rw [hcatcur, hkeq]
        exact hrcatkey.symm
      rw [List.foldl_cons, hcateq, addCat_update_last (r.producto, r.cantidad_total)
        (by
          intro e he hc
          exact hacc₀ne e he (hcateq ▸ hc))]
      refine ih acc₀ r.categoria (ps ++ [(r.producto, r.cantidad_total)])
        (fun x hx' => hkf x (List.mem_cons_of_mem r hx'))
        (fun x hx' => hcatval x (List.mem_cons_of_mem r hx'))
        hrest hrcatkey haccPW haccPr
        (fun e he => hcateq ▸ hacc₀cat e he)
        (fun e he r' hr' => hacc₀rows e he r' (List.mem_cons_of_mem r hr')) ?_ ?_
      · rw [List.pairwise_append]
        refine ⟨hps, List.pairwise_singleton _ _, ?_⟩
        intro a ha b hb
        rw [List.mem_singleton] at hb
        subst hb
        exact hx a ha
      · intro r' hr'
        rcases hcur r' (List.mem_cons_of_mem r hr') with h2 | ⟨h2, h5⟩
        · exact Or.inl (hcateq ▸ h2)
        · refine Or.inr ⟨hcateq ▸ h2, ?_⟩
          intro x hx'
          rcases List.mem_append.mp hx' with h6 | h6
          · exact h5 x h6
          · rw [List.mem_singleton] at h6
            subst h6
            have hprod : r.producto < r'.producto := by
              rcases hr r' hr' with h7 | ⟨-, h7⟩
              · exfalso
                have hkeys : rowKey r = rowKey r' := by
                  rw [← hkfr, ← hkeq, h2]
                  exact hkf r' (List.mem_cons_of_mem r hr')
                rw [hkeys] at h7
                exact keyLt_irrefl _ h7
              · exact h7
            exact hprod

theorem addCat_cats {Q : String → Prop}
    {acc : List (String × List (String × Int))} {cat : String}
    {v : String × Int} (hacc : ∀ e ∈ acc, Q e.1) (hv : Q cat) :
    ∀ e ∈ addCat acc cat v, Q e.1 := by
  intro e he
  unfold addCat at he
  by_cases hlk : (List.lookup cat acc).isSome = true
  · rw [if_pos hlk] at he
    obtain ⟨p, hp, heq⟩ := List.mem_map.mp he
    by_cases hpc : p.1 = cat
    · rw [if_pos (by simpa using hpc)] at heq
      subst heq
      exact hacc p hp
    · rw [if_neg (by simpa using hpc)] at heq
      subst heq
      exact hacc p hp
  · rw [if_neg hlk] at he
    rcases List.mem_append.mp he with h | h
    · exact hacc e h
    · rw [List.mem_singleton] at h
      subst h
      exact hv

theorem regroup_cats (Q : String → Prop) :
    ∀ (rows : List ListaRow) (acc : List (String × List (String × Int))),
    (∀ e ∈ acc, Q e.1) → (∀ r ∈ rows, Q r.categoria) →
    ∀ e ∈ rows.foldl (fun acc it =>
        addCat acc it.categoria (it.producto, it.cantidad_total)) acc, Q e.1 := by
  intro rows
  induction rows with
  | nil => intro acc hacc _ e he; exact hacc e he
  | cons r rows ih =>
    intro acc hacc hrows e he
    rw [List.foldl_cons] at he
    exact ih (addCat acc r.categoria (r.producto, r.cantidad_total))
      (addCat_cats hacc (hrows r (List.mem_cons_self r rows)))
      (fun r' hr' => hrows r' (List.mem_cons_of_mem r hr')) e he

theorem pairwise_dropLast_exists {α : Type} {R : α → α → Prop} :
    ∀ {l : List α}, l.Pairwise R → ∀ x ∈ l.dropLast, ∃ y ∈ l, R x y := by
  intro l
  induction l with
  | nil => intro _ x hx; cases hx
  | cons a rest ih =>
    intro hpw x hx
    rw [List.pairwise_cons] at hpw
    cases rest with
    | nil =>
      rw [List.dropLast_single] at hx
      cases hx
    | cons b rest' =>
      rw [List.dropLast_cons₂] at hx
      rcases List.mem_cons.mp hx with rfl | hx'
      · exact ⟨b, List.mem_cons_of_mem x (List.mem_cons_self b rest'),
          hpw.1 b (List.mem_cons_self b rest')⟩
      · obtain ⟨y, hy, hR⟩ := ih hpw.2 x hx'
        exact ⟨y, List.mem_cons_of_mem a hy, hR⟩

/-- Claim C6 as stated is false: in `stC6` the (user-creatable) real
category `Abc` has display-order 999; `ORDER BY categoria_orden, c.nombre`
compares the synthetic category through the NULL `c.nombre`, which SQLite
sorts *before* every string, so `Sin Categoría` appears *before* the real
category `Abc` instead of after every real category. -/
theorem c6_counterexample :
    stC6.categorias = [⟨1, "Abc", 999⟩] ∧
    get_lista_compras stC6 "2024-05-10" =
      [("Sin Categoría", [("a", 2)]), ("Abc", [("b", 3)])] := by
  exact ⟨rfl, rfl⟩

/-- Claim C6 amended: *provided every real category has display-order
below 999 and none is named "Sin Categoría" (names being unique)*, the
shopping list's categories appear in strictly ascending `(display-order,
name)` order — ties on the order value are broken by category name — with
products inside each category in strictly ascending alphabetical order, and
the synthetic `Sin Categoría` (key `(999, NULL)`) can only be the last
category.  Without the display-order bound the code places `Sin Categoría`
before a real category of order ≥ 999 (see the counterexample), because the
`ORDER BY` tie-break uses the NULL `c.nombre`, not the displayed name. -/
theorem c6_amended (st : Store) (d : String)
    (hord : ∀ c ∈ st.categorias, c.orden < 999)
    (hsin : ∀ c ∈ st.categorias, ¬ c.nombre = "Sin Categoría")
    (hnames : (st.categorias.map Categoria.nombre).Nodup) :
    (get_lista_compras st d).Pairwise
      (fun x y => keyLt (catKey st x.1) (catKey st y.1)) ∧
    (∀ e ∈ get_lista_compras st d, e.2.Pairwise (fun a b => a.1 < b.1)) ∧
    (∀ x ∈ (get_lista_compras st d).dropLast, ¬ x.1 = "Sin Categoría") := by
  have hagree := catKey_agrees st d hsin hnames
  have hcatval := listaRows_cat_eq st d
  have hpw := listaRows_pairwise_rowStrict st d
  have hbound := catKey_bound st d hord hsin hnames
  have hmain : (get_lista_compras st d).Pairwise
      (fun x y => keyLt (catKey st x.1) (catKey st y.1)) ∧
      (∀ e ∈ get_lista_compras st d,
        e.2.Pairwise (fun a b => a.1 < b.1)) := by
    unfold get_lista_compras regroup
    cases hlist : listaRows st d with
    | nil => exact ⟨List.Pairwise.nil, fun e he => absurd he (List.not_mem_nil e)⟩
    | cons r₀ rest =>
      rw [List.foldl_cons, addCat_new (r₀.producto, r₀.cantidad_total)
        (fun e he => absurd he (List.not_mem_nil e))]
      rw [hlist] at hpw
      rw [List.pairwise_cons] at hpw
      have hmem0 : r₀ ∈ listaRows st d := by
        rw [hlist]
        exact List.mem_cons_self r₀ rest
      have hmemr : ∀ x ∈ rest, x ∈ listaRows st d := by
        intro x hx
        rw [hlist]
        exact List.mem_cons_of_mem r₀ hx
      have h0 := regroup_fold_sorted (catKey st) rest [] r₀.categoria
        [(r₀.producto, r₀.cantidad_total)]
        (fun x hx => hagree x (hmemr x hx))
        (fun x hx => hcatval x (hmemr x hx))
        hpw.2
        (by
          rw [hagree r₀ hmem0]
          exact hcatval r₀ hmem0)
        List.Pairwise.nil
        (fun e he => absurd he (List.not_mem_nil e))
        (fun e he => absurd he (List.not_mem_nil e))
        (fun e he => absurd he (List.not_mem_nil e))
        (List.pairwise_singleton _ _)
        (by
          intro r' hr'
          rcases hpw.1 r' hr' with h3 | ⟨h3, h4⟩
          · rw [hagree r₀ hmem0, hagree r' (hmemr r' hr')]
            exact Or.inl h3
          · refine Or.inr ⟨?_, ?_⟩
            · rw [hagree r₀ hmem0, hagree r' (hmemr r' hr')]
              exact h3
            · intro x hx
              rw [List.mem_singleton] at hx
              subst hx
              exact h4)
      simpa using h0
  refine ⟨hmain.1, hmain.2, ?_⟩
  intro x hx hxsin
  obtain ⟨y, hy, hRy⟩ := pairwise_dropLast_exists hmain.1 x
    (by
      unfold get_lista_compras regroup at hx ⊢
      exact hx)
  have hykey : catKey st y.1 = (999, none) ∨ (catKey st y.1).1 < 999 := by
    refine regroup_cats (fun s => catKey st s = (999, none) ∨
      (catKey st s).1 < 999) (listaRows st d) []
      (fun e he => absurd he (List.not_mem_nil e)) ?_ y hy
    intro r hr
    exact hbound r hr
  rw [hxsin] at hRy
  have hsinkey : catKey st "Sin Categoría" = (999, none) := by
    unfold catKey
    rw [if_pos rfl]
  rw [hsinkey] at hRy
  rcases hykey with hk | hk
  · rw [hk] at hRy
    exact keyLt_irrefl _ hRy
  · rcases hRy with h | ⟨h, -⟩
    · omega
    · omega

/-- Witness for the amended C6 at `stW` (orders 1 and 2 below 999, names
unique and distinct from "Sin Categoría"). -/
theorem c6_amended_witness :
    ((∀ c ∈ stW.categorias, c.orden < 999) ∧
      (∀ c ∈ stW.categorias, ¬ c.nombre = "Sin Categoría") ∧
      (stW.categorias.map Categoria.nombre).Nodup) ∧
    (get_lista_compras stW "2024-05-10").Pairwise
      (fun x y => keyLt (catKey stW x.1) (catKey stW y.1)) ∧
    (∀ x ∈ (get_lista_compras stW "2024-05-10").dropLast,
      ¬ x.1 = "Sin Categoría") := by
  have h := c6_amended stW "2024-05-10" (by decide) (by decide) (by decide)
  exact ⟨⟨by decide, by decide, by decide⟩, h.1, h.2.2⟩
